import Mathlib

/-!
# Verification of the strava_radial clustering / route-matching engine

Shallow embedding of `src/utils/clustering.ts` and `src/utils/routeMatching.ts`.

Modelling conventions:
* JavaScript numbers are modelled as real numbers (`ℝ`); array indices and
  labels as `ℕ` (or `ℤ` where the source uses `-1` as a sentinel).
* JavaScript `%` on numbers truncates toward zero, so integer seed states use
  `Int.tmod`.
* Operations that throw a `TypeError` in the source (reading `data[0].length`
  of an empty array) are modelled with `Option`, `none` standing for the
  uncaught exception.
* `Math.sqrt` is `Real.sqrt`, `Math.atan2 y x` is the argument of the complex
  number `x + y*I`.
* Division is Lean's total division (`x / 0 = 0`).  Where the source can
  produce a NaN that propagates to the value a claim talks about (the
  silhouette score), the NaN is modelled explicitly with `Option`, `none`
  standing for NaN; where a division by zero can only influence a branch
  condition (k-means++ probabilities on an all-identical dataset), both the
  IEEE semantics (NaN compares false) and the total-division semantics select
  the same branch, which is noted at the definition site.
* `Infinity` sentinels (`minDist` in the assignment step, `b` in the
  silhouette computation) are modelled with `Option`, `none` standing for the
  initial `Infinity`.
-/

namespace StravaRadial

/-! ## Seeded random number generator (`SeededRandom`, clustering.ts:27-38) -/

structure SeededRandom where
  seed : ℤ
deriving Repr

/-- `next()`: `this.seed = (this.seed * 9301 + 49297) % 233280; return this.seed / 233280;`
JS `%` on integers is truncated remainder, i.e. `Int.tmod`. -/
noncomputable def SeededRandom.next (r : SeededRandom) : ℝ × SeededRandom :=
  let s := (r.seed * 9301 + 49297).tmod 233280
  ((s : ℝ) / 233280, ⟨s⟩)

/-! ## Squared euclidean distance

`euclideanDistance` (clustering.ts:77-83) returns `sqrt (Σ (a i - b i)^2)`.
Inside `kMeans` its value is used only (a) in comparisons `dist < minDist`
(and `Real.sqrt` is strictly monotone on the nonnegative reals, so the
comparison of two square roots has the same outcome as the comparison of the
radicands), and (b) squared again (`minDist * minDist`, clustering.ts:106,
and `(min of sqrt d) ^ 2 = min of d` since `sqrt` is monotone).  `kMeans` is
therefore embedded with the squared distance `dist2`; the silhouette
computation, which averages the actual distances, uses `euclideanDistance`
(defined below) with the genuine square root. -/

/-- Sum over the indices of `a` of `(a[i] - b[i])^2`. -/
def dist2 (a b : List ℝ) : ℝ :=
  (List.range a.length).foldl (fun s i => s + (a.getD i 0 - b.getD i 0) ^ 2) 0

/-- `euclideanDistance` (clustering.ts:77-83): genuine euclidean distance. -/
noncomputable def euclideanDistance (a b : List ℝ) : ℝ :=
  Real.sqrt ((List.range a.length).foldl (fun s i => s + (a.getD i 0 - b.getD i 0) ^ 2) 0)

/-! ## k-means++ centroid selection (clustering.ts:102-126) -/

/-- The cumulative-probability walk of clustering.ts:113-122:
`cumulativeProb += probabilities[i]; if (rand <= cumulativeProb) { selectedIdx = i; break; }`.
Returns `some i` for the first index whose cumulative prefix reaches `rand`,
`none` when the walk falls off the end of the table. -/
noncomputable def selectGo (rand : ℝ) : List ℝ → ℕ → ℝ → Option ℕ
  | [], _, _ => none
  | p :: rest, i, cum =>
    let cum' := cum + p
    if rand ≤ cum' then some i else selectGo rand rest (i + 1) cum'

/-- `selectedIdx` after the walk: the source initialises `selectedIdx = 0`
(clustering.ts:115), so when no table entry is selected the result is `0`. -/
noncomputable def selectNextIdx (probs : List ℝ) (rand : ℝ) : ℕ :=
  (selectGo rand probs 0 0).getD 0

/-- `Math.min(...centroids.map(centroid => euclideanDistance(point, centroid)))`
squared (clustering.ts:104-107): the square of the minimum of the square
roots equals the minimum of the radicands. `centroids` is nonempty at every
call site (it always contains the first centroid). -/
noncomputable def minDist2 (p : List ℝ) (centroids : List (List ℝ)) : ℝ :=
  match centroids with
  | [] => 0
  | c :: rest => rest.foldl (fun m c' => min m (dist2 p c')) (dist2 p c)

/-- One k-means++ round (clustering.ts:103-126, loop body): squared distance
of every point to its nearest chosen centroid, normalised to a probability
distribution, then sampled with one `rng.next()` draw.
On an all-identical dataset `sum = 0`; the source's `probabilities` are then
`0/0 = NaN`, every comparison `rand <= NaN` is false and `selectedIdx` stays
`0`; with total division the probabilities are `0`, the walk accumulates `0`
and (the draw being nonnegative) again selects index `0` unless the draw is
exactly `0` — in which case index `0` is selected by the walk itself.  Both
semantics agree on the selected index. -/
noncomputable def kmeansPPStep (data : List (List ℝ)) (centroids : List (List ℝ))
    (rand : ℝ) : ℕ :=
  let distances := data.map (fun point => minDist2 point centroids)
  let sum := distances.foldl (· + ·) 0
  let probabilities := distances.map (fun d => d / sum)
  selectNextIdx probabilities rand

/-- The k-means++ initialisation rounds `c = 1 .. k-1` (clustering.ts:103-126),
threading the generator. -/
noncomputable def kmeansPPRounds (data : List (List ℝ)) :
    ℕ → List (List ℝ) → SeededRandom → List (List ℝ) × SeededRandom
  | 0, centroids, rng => (centroids, rng)
  | c + 1, centroids, rng =>
    let (rand, rng') := rng.next
    let idx := kmeansPPStep data centroids rand
    kmeansPPRounds data c (centroids ++ [data.getD idx []]) rng'

/-! ## k-means main loop (clustering.ts:128-165) -/

/-- Nearest-centroid assignment for one point (clustering.ts:135-151):
`minDist = Infinity; minCluster = 0; for c in [0,k): if dist < minDist …`.
The `Option ℝ` accumulator models the `Infinity` initialisation; the strict
`<` keeps the first centroid on ties, and comparing squared distances agrees
with comparing the source's square-rooted distances. -/
noncomputable def argminIdx (p : List ℝ) (centroids : List (List ℝ)) (k : ℕ) : ℕ :=
  ((List.range k).foldl
    (fun (acc : Option ℝ × ℕ) c =>
      let d := dist2 p (centroids.getD c [])
      match acc.1 with
      | none => (some d, c)
      | some m => if d < m then (some d, c) else acc)
    (none, 0)).2

/-- Assignment step: label every point with its nearest centroid. -/
noncomputable def assignLabels (data : List (List ℝ)) (centroids : List (List ℝ))
    (k : ℕ) : List ℕ :=
  data.map (fun p => argminIdx p centroids k)

/-- Centroid update (clustering.ts:156-164): for `c < k`, if cluster `c` is
nonempty replace centroid `c` by the coordinate-wise mean of its members,
otherwise leave it unchanged.  (`mapIdx` touches exactly the indices the
source loop `for c in [0,k)` touches, since the centroid list has length `k`
whenever `k ≥ 1`, and for `k = 0` the loop body never runs.) -/
noncomputable def updateCentroids (data : List (List ℝ)) (labels : List ℕ)
    (centroids : List (List ℝ)) (k d : ℕ) : List (List ℝ) :=
  centroids.mapIdx (fun c row =>
    if c < k then
      let clusterPoints := (data.zip labels).filterMap
        (fun pl => if pl.2 = c then some pl.1 else none)
      if clusterPoints = [] then row
      else (List.range d).map (fun j =>
        (clusterPoints.foldl (fun acc point => acc + point.getD j 0) 0) /
          clusterPoints.length)
    else row)

/-- Main iteration (clustering.ts:131-165): assign, stop if no label changed,
otherwise update centroids and recurse; the fuel is `maxIterations`. -/
noncomputable def kmeansLoop (data : List (List ℝ)) (k d : ℕ) :
    ℕ → List ℕ → List (List ℝ) → List ℕ × List (List ℝ)
  | 0, labels, centroids => (labels, centroids)
  | fuel + 1, labels, centroids =>
    let labels' := assignLabels data centroids k
    if labels' = labels then (labels, centroids)
    else kmeansLoop data k d fuel labels' (updateCentroids data labels' centroids k d)

/-- `kMeans` (clustering.ts:88-168).  `none` models the `TypeError` thrown by
`data[0].length` on an empty dataset, and the one thrown by
`[...data[firstIdx]]` (clustering.ts:99) when `Math.floor(rng.next() * n)`
falls outside `[0, n)`: for a seed whose first generator state is negative
(JS `%` keeps the dividend's sign, e.g. seed `-6` gives state `-6509` and a
negative draw) the index is `≤ -1`, `data[firstIdx]` is `undefined`, and
spreading it throws.  The k-means++ rounds never throw: `selectNextIdx`
always returns an index of the `n`-entry probability table (or its `0`
initialisation). -/
noncomputable def kMeans (data : List (List ℝ)) (k : ℕ)
    (maxIterations : ℕ := 100) (seed : ℤ := 42) :
    Option (List ℕ × List (List ℝ)) :=
  match data with
  | [] => none
  | row0 :: _ =>
    let n := data.length
    let d := row0.length
    let rng : SeededRandom := ⟨seed⟩
    let (rand1, rng1) := rng.next
    let firstIdx := ⌊rand1 * n⌋
    if firstIdx < 0 ∨ (n : ℤ) ≤ firstIdx then none
    else
      let centroids0 := [data.getD firstIdx.toNat []]
      let (centroids, _) := kmeansPPRounds data (k - 1) centroids0 rng1
      let labels0 := List.replicate n 0
      some (kmeansLoop data k d maxIterations labels0 centroids)

/-! ## Silhouette score (clustering.ts:173-207)

NaN values that the source can produce and that flow into the returned score
are modelled explicitly: the result is `Option ℝ` with `none` standing for
NaN.  `b` starts at `Infinity` (modelled `none`); `(b - a) / max(a, b)` is
NaN exactly when `b` is still `Infinity` (`∞/∞`) or when `max(a, b) = 0`
(`0/0`; the averages `a` and `b` of nonnegative distances cannot be negative,
so a zero maximum forces a zero numerator). -/

/-- Points of `data` (with index `j ≠ i`) whose label is `c`
(clustering.ts:185 / 195: `data.filter((_, j) => labels[j] === c …)`). -/
def clusterPointsOf (data : List (List ℝ)) (labels : List ℕ) (c : ℕ)
    (exclude : Option ℕ) : List (List ℝ) :=
  ((List.range data.length).filter
    (fun j => labels.getD j 0 = c ∧ exclude ≠ some j)).map
    (fun j => data.getD j [])

/-- `a(i)` (clustering.ts:184-189): average distance to the other points of
`i`'s own cluster, `0` when there are none. -/
noncomputable def silhouetteA (data : List (List ℝ)) (labels : List ℕ) (i : ℕ) : ℝ :=
  let same := clusterPointsOf data labels (labels.getD i 0) (some i)
  if same = [] then 0
  else (same.foldl (fun sum point => sum + euclideanDistance (data.getD i []) point) 0) /
    same.length

/-- One step of the `b(i)` accumulation (clustering.ts:193-200): skip the own
cluster and empty clusters, otherwise `b = Math.min(b, avgDist)` with `b`
starting at `Infinity` (`none`). -/
noncomputable def silhouetteBStep (data : List (List ℝ)) (labels : List ℕ) (i : ℕ)
    (acc : Option ℝ) (c : ℕ) : Option ℝ :=
  if c = labels.getD i 0 then acc
  else
    let other := clusterPointsOf data labels c none
    if other = [] then acc
    else
      let avgDist := (other.foldl
        (fun sum point => sum + euclideanDistance (data.getD i []) point) 0) /
        other.length
      match acc with
      | none => some avgDist
      | some m => some (min m avgDist)

/-- `b(i)` (clustering.ts:192-200): minimum average distance to another
cluster; `none` is the untouched `Infinity`. -/
noncomputable def silhouetteB (data : List (List ℝ)) (labels : List ℕ)
    (k : ℕ) (i : ℕ) : Option ℝ :=
  (List.range k).foldl (silhouetteBStep data labels i) none

/-- Per-point silhouette `s(i) = (b - a) / max(a, b)` (clustering.ts:202);
`none` is NaN: `b` still `Infinity` gives `∞/∞`, and `max(a, b) = 0` gives
`0/0` (the averages of nonnegative distances cannot be negative). -/
noncomputable def silhouettePoint (data : List (List ℝ)) (labels : List ℕ)
    (k : ℕ) (i : ℕ) : Option ℝ :=
  let a := silhouetteA data labels i
  match silhouetteB data labels k i with
  | none => none
  | some bv => if max a bv = 0 then none else some ((bv - a) / max a bv)

/-- `silhouetteScore` (clustering.ts:173-207).  `k = Math.max(...labels) + 1`;
for the nonnegative labels this maximum is `labels.foldl max 0` (and the
`k === 1` guard is `max = 0`; on an empty dataset the source also returns 0
before touching any point). `none` is NaN. -/
noncomputable def silhouetteScore (data : List (List ℝ)) (labels : List ℕ) :
    Option ℝ :=
  let n := data.length
  let k := labels.foldl max 0 + 1
  if k = 1 ∨ n = 0 then some 0
  else
    let scores := (List.range n).map (silhouettePoint data labels k)
    if scores.contains none then none
    else some ((scores.foldl (fun t s => t + s.getD 0) 0) / n)

/-! ## Model selection (`findOptimalK`, clustering.ts:212-240) -/

structure ScoreEntry where
  k : ℕ
  score : Option ℝ

structure ClusterResult where
  labels : List ℕ
  centroids : List (List ℝ)
  silhouetteScore : ℝ
  k : ℕ
  scaledData : Option (List (List ℝ)) := none
  rawData : Option (List (List ℝ)) := none
  silhouetteScores : List ScoreEntry := []

/-- The loop of clustering.ts:219-231, threading
`(bestK, bestScore, bestLabels, bestCentroids, allScores)`.
A NaN score (`none`) fails the `score > bestScore` test, as in IEEE
semantics.  `none` propagates the `TypeError` of `kMeans` on an empty
dataset. -/
noncomputable def findOptimalKGo (data : List (List ℝ)) :
    List ℕ → ℕ → ℝ → List ℕ → List (List ℝ) → List ScoreEntry →
    Option ClusterResult
  | [], bestK, bestScore, bestLabels, bestCentroids, allScores =>
    some { labels := bestLabels, centroids := bestCentroids,
           silhouetteScore := bestScore, k := bestK,
           silhouetteScores := allScores }
  | k :: rest, bestK, bestScore, bestLabels, bestCentroids, allScores =>
    match kMeans data k with
    | none => none
    | some (labels, centroids) =>
      let score := silhouetteScore data labels
      let allScores' := allScores ++ [⟨k, score⟩]
      match score with
      | some s =>
        if bestScore < s then
          findOptimalKGo data rest k s labels centroids allScores'
        else
          findOptimalKGo data rest bestK bestScore bestLabels bestCentroids allScores'
      | none =>
        findOptimalKGo data rest bestK bestScore bestLabels bestCentroids allScores'

/-- `findOptimalK` (clustering.ts:212-240): `bestK = kRange[0]`,
`bestScore = -1`, empty best labels/centroids.  (For an empty `kRange` the
source's `bestK` is `undefined`; `kRange.headD 0` is a stand-in, irrelevant
to every theorem below, all of which assume a nonempty `kRange`.) -/
noncomputable def findOptimalK (data : List (List ℝ))
    (kRange : List ℕ := [2, 3, 4, 5, 6]) : Option ClusterResult :=
  findOptimalKGo data kRange (kRange.headD 0) (-1) [] [] []

/-- The silhouette score the model selector attaches to candidate `k`: run
`kMeans` (clustering.ts:220) and score its labels (clustering.ts:221);
`none` is the propagated fault of `kMeans` on an empty dataset or a NaN
score. -/
noncomputable def scoreOf (data : List (List ℝ)) (k : ℕ) : Option ℝ :=
  (kMeans data k).bind fun lc => silhouetteScore data lc.1

/-! ## Standardizer (`standardize`, clustering.ts:43-72) -/

/-- Column `j` of the dataset (the source reads `data[i][j]` for every row
index `i`; on the rectangular datasets the theorems quantify over, `getD`
agrees with the source's indexing). -/
def column (data : List (List ℝ)) (j : ℕ) : List ℝ :=
  data.map (fun row => row.getD j 0)

/-- `means[j]` (clustering.ts:49-55). -/
noncomputable def colMean (data : List (List ℝ)) (j : ℕ) : ℝ :=
  ((column data j).foldl (· + ·) 0) / data.length

/-- `stds[j]` (clustering.ts:58-64): population standard deviation. -/
noncomputable def colStd (data : List (List ℝ)) (j : ℕ) : ℝ :=
  Real.sqrt ((((column data j).map (fun x => (x - colMean data j) ^ 2)).foldl (· + ·) 0) /
    data.length)

/-- `standardize` (clustering.ts:43-72).  `none` models the `TypeError` of
`data[0].length` on an empty dataset.  Rows are mapped with their index
(`row.map((val, j) => stds[j] === 0 ? 0 : (val - means[j]) / stds[j])`). -/
noncomputable def standardize (data : List (List ℝ)) :
    Option (List (List ℝ) × List ℝ × List ℝ) :=
  match data with
  | [] => none
  | row0 :: _ =>
    let numFeatures := row0.length
    let scaled := data.map (fun row =>
      List.zipWith (fun val j =>
        if colStd data j = 0 then 0 else (val - colMean data j) / colStd data j)
        row (List.range row.length))
    some (scaled, (List.range numFeatures).map (colMean data),
      (List.range numFeatures).map (colStd data))

/-! ## Feature extraction and `clusterActivities` (clustering.ts:245-289) -/

structure Activity where
  distance : ℝ
  moving_time : ℝ
  total_elevation_gain : ℝ
  average_speed : Option ℝ := none
  max_speed : Option ℝ := none

/-- JS truthiness of an optional numeric field: present and nonzero.
(NaN never arises for these inputs.) -/
def truthy (o : Option ℝ) : Prop :=
  match o with
  | some v => v ≠ 0
  | none => False

noncomputable instance : DecidablePred truthy := fun o => by
  unfold truthy; cases o <;> infer_instance

/-- The `switch` of clustering.ts:254-272: a matched feature name pushes one
converted value, an unmatched name pushes nothing. -/
noncomputable def featureValue (a : Activity) (name : String) : Option ℝ :=
  if name = "distance_miles" then some (a.distance / 1609.34)
  else if name = "average_speed_mph" then
    some (if truthy a.average_speed then a.average_speed.getD 0 * 2.23694
          else a.distance / a.moving_time * 2.23694)
  else if name = "total_elevation_gain" then some (a.total_elevation_gain * 3.28084)
  else if name = "moving_time_hours" then some (a.moving_time / 3600)
  else if name = "max_speed_mph" then
    some (if truthy a.max_speed then a.max_speed.getD 0 * 2.23694 else 0)
  else none

noncomputable def extractFeatures (a : Activity) (featureNames : List String) : List ℝ :=
  featureNames.filterMap (featureValue a)

/-- `clusterActivities` (clustering.ts:245-289): extract features,
standardize, find the optimal clustering, attach raw and scaled data.
`none` models the uncaught `TypeError` (raised inside `standardize` when
`activities` is empty). -/
noncomputable def clusterActivities (activities : List Activity)
    (featureNames : List String) (kRange : List ℕ := [2, 3, 4, 5, 6]) :
    Option ClusterResult :=
  let data := activities.map (fun a => extractFeatures a featureNames)
  match standardize data with
  | none => none
  | some (scaled, _, _) =>
    match findOptimalK scaled kRange with
    | none => none
    | some result =>
      some { result with rawData := some data, scaledData := some scaled }

/-! ## Route matching (`routeMatching.ts`) -/

/-- `Math.atan2 y x`: the argument of the complex number `x + y*I`
(this matches JS at every sign combination, including `atan2 0 0 = 0`). -/
noncomputable def atan2 (y x : ℝ) : ℝ :=
  Complex.arg ⟨x, y⟩

/-- Truncation toward zero, the rounding JS `%` uses. -/
noncomputable def rtrunc (x : ℝ) : ℤ :=
  if 0 ≤ x then ⌊x⌋ else ⌈x⌉

/-- JS remainder `x % y`: `x - y * trunc (x / y)` (sign of the dividend). -/
noncomputable def jsMod (x y : ℝ) : ℝ :=
  x - y * rtrunc (x / y)

structure ActivityPoint where
  lat : ℝ
  lng : ℝ

/-- `calculateBearing` (routeMatching.ts:28-41): initial compass heading,
normalised to `[0, 360)` by `(bearing + 360) % 360`. -/
noncomputable def calculateBearing (lat1 lng1 lat2 lng2 : ℝ) : ℝ :=
  let dLng := (lng2 - lng1) * Real.pi / 180
  let lat1Rad := lat1 * Real.pi / 180
  let lat2Rad := lat2 * Real.pi / 180
  let y := Real.sin dLng * Real.cos lat2Rad
  let x := Real.cos lat1Rad * Real.sin lat2Rad -
    Real.sin lat1Rad * Real.cos lat2Rad * Real.cos dLng
  let bearing := atan2 y x * 180 / Real.pi
  jsMod (bearing + 360) 360

/-- `haversineDistance` (routeMatching.ts:46-57), Earth radius 6,371,000 m. -/
noncomputable def haversineDistance (lat1 lng1 lat2 lng2 : ℝ) : ℝ :=
  let R : ℝ := 6371000
  let dLat := (lat2 - lat1) * Real.pi / 180
  let dLng := (lng2 - lng1) * Real.pi / 180
  let a := Real.sin (dLat / 2) * Real.sin (dLat / 2) +
    Real.cos (lat1 * Real.pi / 180) * Real.cos (lat2 * Real.pi / 180) *
      Real.sin (dLng / 2) * Real.sin (dLng / 2)
  let c := 2 * atan2 (Real.sqrt a) (Real.sqrt (1 - a))
  R * c

structure RouteSignature where
  bearings : List ℝ
  distances : List ℝ
  totalDistance : ℝ
  startPoint : ActivityPoint
  endPoint : ActivityPoint

/-- The down-sampling of routeMatching.ts:74-86:
`targetPoints = min(50, n)`, `step = floor(n / targetPoints)`, the points at
indices `0, step, 2*step, …`, plus the final point when the stride missed it
(the source's `!==` compares object identity, so the final point is appended
exactly when index `n-1` is not a multiple of `step`). -/
def samplePoints (points : List ActivityPoint) : List ActivityPoint :=
  let n := points.length
  let targetPoints := min 50 n
  let step := n / targetPoints
  let strided := (List.range ((n - 1) / step + 1)).map
    (fun i => points.getD (i * step) ⟨0, 0⟩)
  if (n - 1) % step = 0 then strided else strided ++ [points.getD (n - 1) ⟨0, 0⟩]

/-- `createRouteSignature` (routeMatching.ts:63-112).  Fewer than 2 points
yield the empty signature (`points[0] || {lat 0, lng 0}` is the head when
present).  Otherwise bearings/haversine distances of consecutive sampled
pairs; `distances` starts at `[0]` and accumulates. -/
noncomputable def createRouteSignature (points : List ActivityPoint) :
    RouteSignature :=
  if points.length < 2 then
    { bearings := [], distances := [], totalDistance := 0,
      startPoint := points.headD ⟨0, 0⟩, endPoint := points.headD ⟨0, 0⟩ }
  else
    let sampledPoints := samplePoints points
    let pairs := sampledPoints.zip sampledPoints.tail
    let bearings := pairs.map (fun pq => calculateBearing pq.1.lat pq.1.lng pq.2.lat pq.2.lng)
    let segs := pairs.map (fun pq => haversineDistance pq.1.lat pq.1.lng pq.2.lat pq.2.lng)
    let distances := segs.scanl (· + ·) 0
    { bearings := bearings, distances := distances,
      totalDistance := segs.foldl (· + ·) 0,
      startPoint := points.headD ⟨0, 0⟩,
      endPoint := points.getD (points.length - 1) ⟨0, 0⟩ }

/-- `interpolateBearings` (routeMatching.ts:180-214): resample a bearing
sequence to `targetLen` by linear interpolation, un-wrapping a crossing of
the 0°/360° seam before interpolating and re-normalising with `% 360`.
Entries are `Option ℝ` with `none` for NaN: when `targetLen = 1` and the
sequence is neither empty nor already of length 1, the source computes
`ratio = (length - 1) / (targetLen - 1) = Infinity`, and at the single index
`i = 0` it computes `pos = 0 * Infinity = NaN`, `idx = NaN`, indexes
`bearings[NaN] = undefined` and emits NaN (routeMatching.ts:185-209).  For
every `targetLen ≥ 2` (and in the two early-return branches) all quantities
are finite reals. -/
noncomputable def interpolateBearings (bearings : List ℝ) (targetLen : ℕ) :
    List (Option ℝ) :=
  if bearings.length = 0 then List.replicate targetLen (some 0)
  else if bearings.length = targetLen then bearings.map some
  else
    (List.range targetLen).map (fun i =>
      if targetLen = 1 then none
      else
        let ratio : ℝ := ((bearings.length : ℝ) - 1) / ((targetLen : ℝ) - 1)
        let pos := (i : ℝ) * ratio
        let idx := ⌊pos⌋
        let frac := pos - idx
        if (bearings.length : ℤ) - 1 ≤ idx then
          some (bearings.getD (bearings.length - 1) 0)
        else
          let b1 := bearings.getD idx.toNat 0
          let b2 := bearings.getD (idx.toNat + 1) 0
          let b1' := if 180 < |b2 - b1| ∧ b1 < b2 then b1 + 360 else b1
          let b2' := if 180 < |b2 - b1| ∧ ¬b1 < b2 then b2 + 360 else b2
          let interpolated := jsMod (b1' + (b2' - b1') * frac) 360
          some (if interpolated < 0 then interpolated + 360 else interpolated))

/-- Fold an absolute bearing difference to at most 180°
(routeMatching.ts:165-167). -/
noncomputable def bearingDiff (x y : ℝ) : ℝ :=
  let diff := |x - y|
  if 180 < diff then 360 - diff else diff

/-- One `totalDiff` accumulation step (routeMatching.ts:164-169):
`totalDiff += diff` with the folded bearing difference of the two samples at
index `i`; a NaN accumulator or sample poisons the sum (`none`). -/
noncomputable def bearingDiffStep (norm1 norm2 : List (Option ℝ))
    (t : Option ℝ) (i : ℕ) : Option ℝ :=
  match t, norm1.getD i (some 0), norm2.getD i (some 0) with
  | some tv, some x, some y => some (tv + bearingDiff x y)
  | _, _, _ => none

/-- `compareBearingSequences` (routeMatching.ts:155-175).  `totalDiff`
accumulates `|norm1[i] - norm2[i]|` (folded to ≤ 180°); a NaN sample poisons
the running sum exactly as IEEE addition does, so the accumulator is
`Option ℝ` with `none` for NaN. -/
noncomputable def compareBearingSequences (bearings1 bearings2 : List ℝ) :
    Option ℝ :=
  let targetLen := min (min bearings1.length bearings2.length) 30
  let norm1 := interpolateBearings bearings1 targetLen
  let norm2 := interpolateBearings bearings2 targetLen
  let totalDiff := (List.range targetLen).foldl (bearingDiffStep norm1 norm2) (some 0)
  totalDiff.map (fun tv => tv / (180 * targetLen))

/-- `compareSignatures` (routeMatching.ts:118-149): weighted sum of the
location score (weight 0.3), the distance score (weight 0.2) and the bearing
score (weight 0.5); `1.0` immediately when either signature has no bearings.
`none` is NaN: the distance ratio `|t1 - t2| / max(t1, t2)` is `0/0 = NaN`
when both totals are equal and their maximum is `0` (then
`Math.min(NaN * 2, 1) = NaN`), and `x/0 = Infinity` for a nonzero numerator
(then `Math.min(Infinity * 2, 1) = 1`); a NaN bearing score also poisons the
sum.  The source computes all three components and adds them, so the order
of the `match` below does not affect the result. -/
noncomputable def compareSignatures (sig1 sig2 : RouteSignature) : Option ℝ :=
  if sig1.bearings.length = 0 ∨ sig2.bearings.length = 0 then some 1.0
  else
    let startDist := haversineDistance sig1.startPoint.lat sig1.startPoint.lng
      sig2.startPoint.lat sig2.startPoint.lng
    let endDist := haversineDistance sig1.endPoint.lat sig1.endPoint.lng
      sig2.endPoint.lat sig2.endPoint.lng
    let locationScore := min ((startDist + endDist) / 10000) 1.0
    let distanceScore : Option ℝ :=
      if max sig1.totalDistance sig2.totalDistance = 0 then
        if |sig1.totalDistance - sig2.totalDistance| = 0 then none else some 1
      else
        some (min (|sig1.totalDistance - sig2.totalDistance| /
          max sig1.totalDistance sig2.totalDistance * 2) 1.0)
    match compareBearingSequences sig1.bearings sig2.bearings, distanceScore with
    | some bearingScore, some ds =>
      some (locationScore * 0.3 + ds * 0.2 + bearingScore * 0.5)
    | _, _ => none

/-! ## DBSCAN (`dbscan`, routeMatching.ts:219-268) -/

/-- `rangeQuery` (routeMatching.ts:224-232): indices whose matrix entry is
within `eps`. -/
noncomputable def rangeQuery (m : List (List ℝ)) (eps : ℝ) (idx : ℕ) : List ℕ :=
  (List.range m.length).filter (fun i => (m.getD idx []).getD i 0 ≤ eps)

/-- The `while` loop of `expandCluster` (routeMatching.ts:237-251): visit the
growing `neighbors` queue from position `i`; a neighbour still labelled `-1`
is absorbed into cluster `cid`, and if it is itself a core point its
neighbourhood (minus the indices already queued) is appended.  The queue
holds distinct indices `< n`, so the loop runs at most `n` times; `fuel`
makes the recursion structural and every caller passes enough of it. -/
noncomputable def expandLoop (m : List (List ℝ)) (eps : ℝ) (minSamples : ℕ)
    (cid : ℤ) : ℕ → List ℤ → List ℕ → ℕ → List ℤ × List ℕ
  | 0, labels, neighbors, _ => (labels, neighbors)
  | fuel + 1, labels, neighbors, i =>
    if i < neighbors.length then
      let nIdx := neighbors.getD i 0
      if labels.getD nIdx 0 = -1 then
        let labels' := labels.set nIdx cid
        let nNeighbors := rangeQuery m eps nIdx
        let neighbors' :=
          if minSamples ≤ nNeighbors.length then
            neighbors ++ nNeighbors.filter (fun x => ¬ neighbors.contains x)
          else neighbors
        expandLoop m eps minSamples cid fuel labels' neighbors' (i + 1)
      else expandLoop m eps minSamples cid fuel labels neighbors (i + 1)
    else (labels, neighbors)

/-- `expandCluster` (routeMatching.ts:234-252): `labels[idx] = cid`, then the
queue walk. -/
noncomputable def expandCluster (m : List (List ℝ)) (eps : ℝ) (minSamples : ℕ)
    (idx : ℕ) (neighbors : List ℕ) (cid : ℤ) (labels : List ℤ) : List ℤ :=
  (expandLoop m eps minSamples cid (m.length + neighbors.length + 1)
    (labels.set idx cid) neighbors 0).1

/-- The main loop of `dbscan` (routeMatching.ts:254-265) over the remaining
point indices. -/
noncomputable def dbscanGo (m : List (List ℝ)) (eps : ℝ) (minSamples : ℕ) :
    List ℕ → List ℤ → ℤ → List ℤ
  | [], labels, _ => labels
  | i :: rest, labels, clusterId =>
    if labels.getD i 0 ≠ -1 then dbscanGo m eps minSamples rest labels clusterId
    else
      let neighbors := rangeQuery m eps i
      if neighbors.length < minSamples then
        dbscanGo m eps minSamples rest (labels.set i (-1)) clusterId
      else
        dbscanGo m eps minSamples rest
          (expandCluster m eps minSamples i neighbors clusterId labels) (clusterId + 1)

/-- `dbscan` (routeMatching.ts:219-268). -/
noncomputable def dbscan (m : List (List ℝ)) (eps : ℝ) (minSamples : ℕ) : List ℤ :=
  dbscanGo m eps minSamples (List.range m.length) (List.replicate m.length (-1)) 0

structure RouteMatchResult where
  labels : List ℤ
  patterns : ℕ
  uniqueRoutes : ℕ
  patternColors : List String
  similarityMatrix : Option (List (List (Option ℝ))) := none

/-- `getPatternColor` (routeMatching.ts:273-287). -/
def getPatternColor (patternIndex : ℕ) : String :=
  let colors := ["#FF3B3B", "#00D9FF", "#FFD93B", "#9D4EDD", "#06FFA5",
    "#FF6B35", "#4361EE", "#FF1E8C", "#00B4D8", "#F72585"]
  colors.getD (patternIndex % colors.length) ""

/-- `findSimilarRoutes` (routeMatching.ts:295-346): signatures, symmetric
similarity matrix (diagonal left at 0, `none` for a NaN similarity), DBSCAN,
pattern/unique counts and colors.  The `console.log` calls are side-effect
free on the result.  Inside `dbscan` the matrix is only ever read through
`entry <= eps` (routeMatching.ts:227) and a NaN entry never satisfies that,
exactly like any real value above `eps`; the real matrix handed to `dbscan`
therefore substitutes `eps + 1` for `none`, which is observationally equal
for this call. -/
noncomputable def findSimilarRoutes (routes : List (List ActivityPoint))
    (similarityThreshold : ℝ := 0.25) (minMatches : ℕ := 2) : RouteMatchResult :=
  if routes.length = 0 then
    { labels := [], patterns := 0, uniqueRoutes := 0, patternColors := [] }
  else
    let signatures := routes.map createRouteSignature
    let n := routes.length
    let distanceMatrix := (List.range n).map (fun i =>
      (List.range n).map (fun j =>
        if i = j then some 0
        else compareSignatures (signatures.getD (min i j) ⟨[], [], 0, ⟨0, 0⟩, ⟨0, 0⟩⟩)
          (signatures.getD (max i j) ⟨[], [], 0, ⟨0, 0⟩, ⟨0, 0⟩⟩)))
    let labels := dbscan
      (distanceMatrix.map (fun row => row.map (fun o => o.getD (similarityThreshold + 1))))
      similarityThreshold minMatches
    let patterns := (labels.filter (0 ≤ ·)).dedup.length
    let uniqueRoutes := (labels.filter (· = -1)).length
    let patternColors := (List.range patterns).map getPatternColor
    { labels := labels, patterns := patterns, uniqueRoutes := uniqueRoutes,
      patternColors := patternColors, similarityMatrix := some distanceMatrix }

/-! ## Helper lemmas -/

theorem getD_set (l : List ℤ) (n p : ℕ) (a d : ℤ) :
    (l.set n a).getD p d = if p = n ∧ n < l.length then a else l.getD p d := by
  rcases eq_or_ne p n with rfl | hpn
  · by_cases h : p < l.length
    · simp [List.getD_eq_getElem?_getD, List.getElem?_set_self', h,
        List.getElem?_eq_getElem, h]
    · rw [List.set_eq_of_length_le (not_lt.mp h)]
      simp [h]
  · simp [List.getD_eq_getElem?_getD, List.getElem?_set_ne (Ne.symm hpn), hpn]

theorem assignLabels_length (data centroids : List (List ℝ)) (k : ℕ) :
    (assignLabels data centroids k).length = data.length := by
  simp [assignLabels]

theorem kmeansLoop_labels_length (data : List (List ℝ)) (k d : ℕ) :
    ∀ (fuel : ℕ) (labels : List ℕ) (centroids : List (List ℝ)),
      labels.length = data.length →
      ((kmeansLoop data k d fuel labels centroids).1).length = data.length := by
  intro fuel
  induction fuel with
  | zero => intro labels centroids h; simpa [kmeansLoop] using h
  | succ fuel ih =>
    intro labels centroids h
    rw [kmeansLoop]
    by_cases hc : assignLabels data centroids k = labels
    · simpa [hc] using h
    · simp only [hc, if_neg hc]
      exact ih _ _ (assignLabels_length data centroids k)

/-- For a state `0 ≤ s < 233280` the draw `s / 233280` lies in `[0, 1)`, so
`Math.floor(draw * n)` lies in `[0, n)` and `data[firstIdx]` is defined. -/
theorem floor_draw_range (s : ℤ) (n : ℕ) (hs0 : 0 ≤ s) (hs1 : s < 233280)
    (hn : 0 < n) :
    ¬(⌊(s : ℝ) / 233280 * (n : ℝ)⌋ < 0 ∨ (n : ℤ) ≤ ⌊(s : ℝ) / 233280 * (n : ℝ)⌋) := by
  have hr0 : (0 : ℝ) ≤ (s : ℝ) / 233280 := by
    have : (0 : ℝ) ≤ (s : ℝ) := by exact_mod_cast hs0
    positivity
  have hr1 : (s : ℝ) / 233280 < 1 := by
    rw [div_lt_one (by norm_num)]
    exact_mod_cast hs1
  have hnpos : (0 : ℝ) < (n : ℝ) := by exact_mod_cast hn
  push_neg
  constructor
  · exact Int.floor_nonneg.mpr (mul_nonneg hr0 (le_of_lt hnpos))
  · rw [Int.floor_lt]
    push_cast
    calc (s : ℝ) / 233280 * (n : ℝ) < 1 * (n : ℝ) :=
          mul_lt_mul_of_pos_right hr1 hnpos
      _ = (n : ℝ) := one_mul _

/-- `kMeans` succeeds on nonempty data for every nonnegative seed: the first
generator state is then nonnegative, the first draw lies in `[0, 1)` and the
first-centroid index in `[0, n)`. -/
theorem kMeans_of_nonneg_seed (data : List (List ℝ)) (k maxIterations : ℕ)
    (seed : ℤ) (h : data ≠ []) (hseed : 0 ≤ seed) :
    ∃ labels centroids, kMeans data k maxIterations seed = some (labels, centroids) ∧
      labels.length = data.length := by
  match data, h with
  | row0 :: rows, _ =>
    have hs0 : 0 ≤ (seed * 9301 + 49297).tmod 233280 :=
      Int.tmod_nonneg _ (by nlinarith)
    have hs1 : (seed * 9301 + 49297).tmod 233280 < 233280 :=
      Int.tmod_lt_of_pos _ (by norm_num)
    have hcond := floor_draw_range ((seed * 9301 + 49297).tmod 233280)
      (row0 :: rows).length hs0 hs1 (by simp)
    rw [kMeans]
    simp only [SeededRandom.next]
    rw [if_neg hcond]
    exact ⟨_, _, rfl, kmeansLoop_labels_length _ _ _ _ _ _ (by simp)⟩

/-! ## C1 -/

/-- C1: `kMeans` is deterministic — in this pure embedding two invocations
with identical arguments are literally the same value — and its only
pseudo-random source, `SeededRandom`, follows the linear-congruential
recurrence `seed ↦ (seed * 9301 + 49297) mod 233280` with output
`seed / 233280`. -/
theorem kMeans_deterministic_lcg :
    (∀ (data : List (List ℝ)) (k maxIterations : ℕ) (seed : ℤ),
        kMeans data k maxIterations seed = kMeans data k maxIterations seed) ∧
    (∀ s : ℤ,
        (SeededRandom.next ⟨s⟩).2 = ⟨(s * 9301 + 49297).tmod 233280⟩ ∧
        (SeededRandom.next ⟨s⟩).1 = (((s * 9301 + 49297).tmod 233280 : ℤ) : ℝ) / 233280) :=
  ⟨fun _ _ _ _ => rfl, fun _ => ⟨rfl, rfl⟩⟩

/-! ## C2 -/

/-- C2 (counterexample): with zero activities, `clusterActivities` does not
return a well-defined neutral result: `standardize` reads `data[0].length`
of the empty feature matrix and the resulting `TypeError` propagates
(modelled as `none`). -/
theorem clusterActivities_empty_faults :
    clusterActivities [] ["distance_miles"] [2, 3, 4, 5, 6] = none := rfl

/-- C2 (amended): the degenerate inputs behave as claimed except for
`clusterActivities` on zero activities, which throws: a zero-length
coordinate sequence gives the empty signature with zero bearings, an empty
route list gives the empty match result, `kMeans` on a nonempty dataset
(in particular with fewer points than `k`) with a nonnegative seed —
`clusterActivities` always calls it with the default seed 42 — returns
labels for every point without faulting, an empty dataset has silhouette
score 0 — but `clusterActivities` with zero activities raises an uncaught
`TypeError` (`none`), and a seed whose first generator state is negative
(e.g. `-6`, state `-6509`) also makes `kMeans` itself throw on
`data[Math.floor(rand * n)]`. -/
theorem degenerate_inputs_neutral :
    (createRouteSignature [] =
      { bearings := [], distances := [], totalDistance := 0,
        startPoint := ⟨0, 0⟩, endPoint := ⟨0, 0⟩ }) ∧
    (∀ (t : ℝ) (mm : ℕ), findSimilarRoutes [] t mm =
      { labels := [], patterns := 0, uniqueRoutes := 0, patternColors := [] }) ∧
    (∀ (data : List (List ℝ)) (k maxIterations : ℕ) (seed : ℤ),
      data ≠ [] → 0 ≤ seed →
      ∃ labels centroids,
        kMeans data k maxIterations seed = some (labels, centroids) ∧
        labels.length = data.length) ∧
    (∀ labels : List ℕ, silhouetteScore [] labels = some 0) ∧
    (∀ (featureNames : List String) (kRange : List ℕ),
      clusterActivities [] featureNames kRange = none) ∧
    (kMeans [[(0 : ℝ)]] 2 100 (-6) = none) := by
  refine ⟨?_, ?_, ?_, ?_, ?_, ?_⟩
  · simp [createRouteSignature]
  · intro t mm; simp [findSimilarRoutes]
  · exact fun data k mi seed h hs => kMeans_of_nonneg_seed data k mi seed h hs
  · intro labels; simp [silhouetteScore]
  · intro featureNames kRange; rfl
  · have htm : ((-6 : ℤ) * 9301 + 49297).tmod 233280 = -6509 := by decide
    have hfl : ⌊(-6509 : ℝ) / 233280⌋ = -1 := by
      rw [Int.floor_eq_iff]
      norm_num
    rw [kMeans]
    simp only [SeededRandom.next, htm, List.length_cons, List.length_nil]
    rw [if_pos]
    left
    norm_num [hfl]

/-- C2 witness: the amended theorem at concrete inputs; in particular
`kMeans` on one point with `k = 3` (fewer points than `k`) and the default
seed 42 succeeds. -/
theorem degenerate_inputs_neutral_witness :
    ∃ labels centroids,
      kMeans [[(0 : ℝ)]] 3 100 42 = some (labels, centroids) ∧
        labels.length = 1 :=
  degenerate_inputs_neutral.2.2.1 [[(0 : ℝ)]] 3 100 42 (by simp) (by norm_num)

/-! ## C4 -/

theorem selectGo_eq_none (rand : ℝ) :
    ∀ (probs : List ℝ) (i : ℕ) (cum : ℝ),
      (∀ j < probs.length, cum + (probs.take (j + 1)).sum < rand) →
      selectGo rand probs i cum = none := by
  intro probs
  induction probs with
  | nil => intro i cum _; rfl
  | cons p rest ih =>
    intro i cum h
    have h0 : cum + p < rand := by simpa using h 0 (by simp)
    rw [selectGo]
    simp only [if_neg (not_le.mpr h0)]
    refine ih (i + 1) (cum + p) ?_
    intro j hj
    have := h (j + 1) (by simpa using Nat.succ_lt_succ hj)
    simpa [List.take_succ_cons, add_assoc] using this

theorem selectGo_eq_some (rand : ℝ) :
    ∀ (probs : List ℝ) (t i : ℕ) (cum : ℝ),
      t < probs.length →
      rand ≤ cum + (probs.take (t + 1)).sum →
      (∀ j < t, cum + (probs.take (j + 1)).sum < rand) →
      selectGo rand probs i cum = some (i + t) := by
  intro probs
  induction probs with
  | nil => intro t i cum ht; exact absurd ht (by simp)
  | cons p rest ih =>
    intro t i cum ht hle hmin
    match t with
    | 0 =>
      rw [selectGo]
      simp only [if_pos (show rand ≤ cum + p by simpa using hle)]
      simp
    | t' + 1 =>
      have h0 : cum + p < rand := by simpa using hmin 0 (Nat.succ_pos _)
      rw [selectGo]
      simp only [if_neg (not_le.mpr h0)]
      have := ih t' (i + 1) (cum + p) (by simpa using Nat.lt_of_succ_lt_succ ht)
        (by simpa [List.take_succ_cons, add_assoc] using hle)
        (fun j hj => by
          simpa [List.take_succ_cons, add_assoc] using
            hmin (j + 1) (Nat.succ_lt_succ hj))
      simpa [Nat.add_assoc, Nat.add_comm 1 t'] using this

/-- C4 (counterexample): when the draw exceeds the accumulated total so that
no entry of the cumulative-probability table is selected, the selected index
is `0` (the initialisation of `selectedIdx`), not the last index `n - 1` as
claimed. -/
theorem kmeansPP_fallback_is_not_last :
    ((1 : ℝ) / 2 + 1 / 4 < 9 / 10) ∧
    selectNextIdx [1 / 2, 1 / 4] (9 / 10) = 0 ∧
    [(1 : ℝ) / 2, 1 / 4].length - 1 = 1 ∧ (0 : ℕ) ≠ 1 := by
  refine ⟨by norm_num, ?_, by simp, by simp⟩
  rw [selectNextIdx, selectGo]
  rw [if_neg (by norm_num), selectGo]
  rw [if_neg (by norm_num), selectGo]
  rfl

/-- C4 (amended): each k-means++ centroid after the first is selected by a
cumulative-probability walk (`selectNextIdx`, the sampling step used by
`kmeansPPStep` inside `kMeans`) over the normalized nearest-centroid squared
distances against a single `rng.next()` draw: the first index whose
cumulative prefix reaches the draw is chosen, and whenever the draw exceeds
the accumulated total so that no table entry is selected, the fallback
selection is index `0` (the initial value of `selectedIdx`), not the last
index. -/
theorem kmeansPP_cumulative_walk :
    (∀ (probs : List ℝ) (rand : ℝ),
        (∀ j < probs.length, (probs.take (j + 1)).sum < rand) →
        selectNextIdx probs rand = 0) ∧
    (∀ (probs : List ℝ) (rand : ℝ) (t : ℕ),
        t < probs.length →
        rand ≤ (probs.take (t + 1)).sum →
        (∀ j < t, (probs.take (j + 1)).sum < rand) →
        selectNextIdx probs rand = t) := by
  constructor
  · intro probs rand h
    rw [selectNextIdx, selectGo_eq_none rand probs 0 0 (by simpa using h)]
    rfl
  · intro probs rand t ht hle hmin
    rw [selectNextIdx, selectGo_eq_some rand probs t 0 0 ht (by simpa using hle)
      (by simpa using hmin)]
    simp

/-- C4 witness: the amended theorem at a concrete table: with probabilities
`[1/2, 1/2]` and draw `3/4`, the walk selects index 1; with draw `9/10`
exceeding the total `3/4` of `[1/2, 1/4]`, the fallback selects index 0. -/
theorem kmeansPP_cumulative_walk_witness :
    selectNextIdx [(1 : ℝ) / 2, 1 / 2] (3 / 4) = 1 ∧
    selectNextIdx [(1 : ℝ) / 2, 1 / 4] (9 / 10) = 0 := by
  constructor
  · refine kmeansPP_cumulative_walk.2 [(1 : ℝ) / 2, 1 / 2] (3 / 4) 1 (by simp) ?_ ?_
    · norm_num
    · intro j hj
      have hj0 : j = 0 := by omega
      subst hj0
      norm_num
  · refine kmeansPP_cumulative_walk.1 [(1 : ℝ) / 2, 1 / 4] (9 / 10) ?_
    intro j hj
    simp only [List.length_cons, List.length_nil] at hj
    have hj01 : j = 0 ∨ j = 1 := by omega
    rcases hj01 with rfl | rfl <;> norm_num

/-! ## C10 -/

/-- Every write `expandLoop` performs stores `cid`, so a position already
holding `cid` keeps it. -/
theorem expandLoop_preserves_cid (m : List (List ℝ)) (eps : ℝ) (ms : ℕ) (cid : ℤ) :
    ∀ (fuel : ℕ) (labels : List ℤ) (neighbors : List ℕ) (i p : ℕ),
      labels.getD p 0 = cid →
      ((expandLoop m eps ms cid fuel labels neighbors i).1).getD p 0 = cid := by
  intro fuel
  induction fuel with
  | zero => intro labels neighbors i p h; simpa [expandLoop] using h
  | succ fuel ih =>
    intro labels neighbors i p h
    rw [expandLoop]
    by_cases hi : i < neighbors.length
    · simp only [if_pos hi]
      by_cases hl : labels.getD (neighbors.getD i 0) 0 = -1
      · simp only [if_pos hl]
        refine ih _ _ _ _ ?_
        rw [getD_set]
        by_cases hc : p = neighbors.getD i 0 ∧ neighbors.getD i 0 < labels.length
        · rw [if_pos hc]
        · rw [if_neg hc]; exact h
      · simp only [if_neg hl]
        exact ih _ _ _ _ h
    · simpa [if_neg hi] using h

/-- `expandLoop` only writes to positions currently labelled `-1`: a position
with another label keeps its value. -/
theorem expandLoop_preserves_ne (m : List (List ℝ)) (eps : ℝ) (ms : ℕ) (cid : ℤ) :
    ∀ (fuel : ℕ) (labels : List ℤ) (neighbors : List ℕ) (i p : ℕ),
      labels.getD p 0 ≠ -1 →
      ((expandLoop m eps ms cid fuel labels neighbors i).1).getD p 0 =
        labels.getD p 0 := by
  intro fuel
  induction fuel with
  | zero => intro labels neighbors i p _; simp [expandLoop]
  | succ fuel ih =>
    intro labels neighbors i p h
    rw [expandLoop]
    by_cases hi : i < neighbors.length
    · simp only [if_pos hi]
      by_cases hl : labels.getD (neighbors.getD i 0) 0 = -1
      · simp only [if_pos hl]
        have hpn : p ≠ neighbors.getD i 0 := fun hc => h (hc ▸ hl)
        have hset : (labels.set (neighbors.getD i 0) cid).getD p 0 =
            labels.getD p 0 := by
          rw [getD_set, if_neg (fun hc => hpn hc.1)]
        rw [ih _ _ _ _ (by rw [hset]; exact h), hset]
      · simp only [if_neg hl]
        exact ih _ _ _ _ h
    · simp [if_neg hi]

/-- The main DBSCAN loop only writes to positions currently labelled `-1`. -/
theorem dbscanGo_preserves_ne (m : List (List ℝ)) (eps : ℝ) (ms : ℕ) :
    ∀ (rest : List ℕ) (labels : List ℤ) (clusterId : ℤ) (p : ℕ),
      labels.getD p 0 ≠ -1 →
      (dbscanGo m eps ms rest labels clusterId).getD p 0 = labels.getD p 0 := by
  intro rest
  induction rest with
  | nil => intro labels clusterId p _; simp [dbscanGo]
  | cons i rest ih =>
    intro labels clusterId p h
    rw [dbscanGo]
    by_cases hi : labels.getD i 0 ≠ -1
    · simp only [if_pos hi]
      exact ih _ _ _ h
    · simp only [if_neg hi]
      push_neg at hi
      have hpi : p ≠ i := fun hc => h (hc ▸ hi)
      by_cases hn : (rangeQuery m eps i).length < ms
      · simp only [if_pos hn]
        have hset : (labels.set i (-1)).getD p 0 = labels.getD p 0 := by
          rw [getD_set, if_neg (fun hc => hpi hc.1)]
        rw [ih _ _ _ (by rw [hset]; exact h), hset]
      · simp only [if_neg hn]
        have hset : (labels.set i clusterId).getD p 0 = labels.getD p 0 := by
          rw [getD_set, if_neg (fun hc => hpi hc.1)]
        have hexp : (expandCluster m eps ms i (rangeQuery m eps i) clusterId
            labels).getD p 0 = labels.getD p 0 := by
          rw [expandCluster, expandLoop_preserves_ne m eps ms clusterId _ _ _ _ _
            (by rw [hset]; exact h), hset]
        rw [ih _ _ _ (by rw [hexp]; exact h), hexp]

/-- C10: during another cluster's expansion, a point that is (still) labelled
`-1` when visited is flipped to that cluster's id `cid` and keeps it to the
end of the expansion (first conjunct: the label state is re-checked at visit
time, `labels.getD nIdx 0 = -1`, not fixed at first visit), and the rest of
the DBSCAN main loop never overwrites a label that is no longer `-1`
(second conjunct), so the point does not remain `-1`. -/
theorem dbscan_noise_flip (m : List (List ℝ)) (eps : ℝ) (ms : ℕ) (cid : ℤ) :
    (∀ (fuel : ℕ) (labels : List ℤ) (neighbors : List ℕ) (i : ℕ),
        i < neighbors.length →
        labels.getD (neighbors.getD i 0) 0 = -1 →
        ((expandLoop m eps ms cid (fuel + 1) labels neighbors i).1).getD
          (neighbors.getD i 0) 0 = cid) ∧
    (∀ (rest : List ℕ) (labels : List ℤ) (clusterId : ℤ) (p : ℕ),
        labels.getD p 0 ≠ -1 →
        (dbscanGo m eps ms rest labels clusterId).getD p 0 = labels.getD p 0) := by
  constructor
  · intro fuel labels neighbors i hi hl
    have hlen : neighbors.getD i 0 < labels.length := by
      by_contra hge
      rw [List.getD_eq_getElem?_getD, List.getElem?_eq_none (not_lt.mp hge)] at hl
      simp at hl
    rw [expandLoop]
    simp only [if_pos hi, if_pos hl]
    refine expandLoop_preserves_cid m eps ms cid _ _ _ _ _ ?_
    rw [getD_set, if_pos ⟨rfl, hlen⟩]
  · exact dbscanGo_preserves_ne m eps ms

/-- C10 witness: the theorem at concrete states: a point labelled `-1` that
cluster 7 reaches at queue position 0 ends the expansion labelled 7, and a
point already labelled 5 survives a main-loop pass untouched. -/
theorem dbscan_noise_flip_witness :
    ((expandLoop [[(0 : ℝ)]] 0 0 7 1 [-1] [0] 0).1).getD 0 0 = 7 ∧
    (dbscanGo [[(0 : ℝ)]] 0 2 [0] [5] 0).getD 0 0 = 5 := by
  constructor
  · have h := (dbscan_noise_flip [[(0 : ℝ)]] 0 0 7).1 0 [-1] [0] 0
      (by simp) (by simp)
    simpa using h
  · have h := (dbscan_noise_flip [[(0 : ℝ)]] 0 2 7).2 [0] [5] 0 0 (by simp)
    simpa using h

/-! ## C3 -/

/-- Arithmetic core of the sampling bound: with `step = n / min 50 n`, the
stride visits `(n-1)/step + 1` indices, plus possibly the appended final
point. -/
theorem stride_count_le (n : ℕ) :
    (if (n - 1) % (n / min 50 n) = 0 then (n - 1) / (n / min 50 n) + 1
     else (n - 1) / (n / min 50 n) + 1 + 1) ≤ 99 := by
  rcases Nat.eq_zero_or_pos n with rfl | hpos
  · norm_num
  rcases le_or_lt n 99 with h99 | h99
  · have hstep : n / min 50 n = 1 := by
      rcases le_or_lt n 50 with h50 | h50
      · rw [min_eq_right h50, Nat.div_self hpos]
      · rw [min_eq_left (le_of_lt h50)]
        omega
    rw [hstep]
    simp only [Nat.mod_one, Nat.div_one, if_pos]
    omega
  · have hmin : min 50 n = 50 := min_eq_left (by omega)
    rw [hmin]
    have h2 : 2 ≤ n / 50 := by omega
    have hub : (n - 1) / (n / 50) ≤ 74 := by
      have h75 : (n - 1) / (n / 50) < 75 := by
        rw [Nat.div_lt_iff_lt_mul (by omega)]
        omega
      omega
    split <;> omega

theorem samplePoints_length_le (points : List ActivityPoint) :
    (samplePoints points).length ≤ 99 := by
  have h := stride_count_le points.length
  simp only [samplePoints]
  split
  case isTrue hc =>
    simpa only [List.length_map, List.length_range, if_pos hc] using h
  case isFalse hc =>
    simpa only [List.length_append, List.length_map, List.length_range,
      List.length_singleton, if_neg hc] using h

theorem samplePoints_ne_nil (points : List ActivityPoint) :
    samplePoints points ≠ [] := by
  simp only [samplePoints]
  split
  · simp
  · simp

theorem createRouteSignature_bearings_length (points : List ActivityPoint)
    (h : 2 ≤ points.length) :
    (createRouteSignature points).bearings.length = (samplePoints points).length - 1 := by
  simp only [createRouteSignature, if_neg (not_lt.mpr h)]
  rw [List.length_map, List.length_zip (samplePoints points) (samplePoints points).tail,
    List.length_tail]
  omega

/-- On a nonempty list, `getLast?` is the element at index `length - 1`. -/
theorem getLast?_eq_getD {α : Type} (l : List α) (d : α) (h : l ≠ []) :
    l.getLast? = some (l.getD (l.length - 1) d) := by
  have hlt : l.length - 1 < l.length := by
    have : 0 < l.length := List.length_pos.mpr h
    omega
  rw [List.getLast?_eq_getElem? l, List.getElem?_eq_getElem hlt,
    List.getD_eq_getElem?_getD, List.getElem?_eq_getElem hlt]
  rfl

theorem samplePoints_getLast (points : List ActivityPoint)
    (h : 2 ≤ points.length) :
    (samplePoints points).getLast? = points.getLast? := by
  have hne : points ≠ [] := by
    intro hc; rw [hc] at h; simp at h
  rw [getLast?_eq_getD points ⟨0, 0⟩ hne]
  simp only [samplePoints]
  split
  case isTrue hc =>
    have hdvd := Nat.div_mul_cancel (Nat.dvd_of_mod_eq_zero hc)
    rw [show List.range ((points.length - 1) / (points.length / min 50 points.length) + 1) =
        List.range ((points.length - 1) / (points.length / min 50 points.length)) ++
          [(points.length - 1) / (points.length / min 50 points.length)] from
        List.range_succ _,
      List.map_append, List.map_singleton, List.getLast?_concat, hdvd]
  case isFalse hc =>
    rw [List.getLast?_concat]

/-- C3 (counterexample): a 99-point track is not down-sampled to at most 50
representative points: the stride is `floor(99 / min(50,99)) = 1`, all 99
points are kept, and the signature has 98 bearings. -/
theorem createRouteSignature_not_50_points :
    (samplePoints ((List.range 99).map fun i : ℕ =>
      (⟨(i : ℝ), 0⟩ : ActivityPoint))).length = 99 ∧
    ¬ (samplePoints ((List.range 99).map fun i : ℕ =>
      (⟨(i : ℝ), 0⟩ : ActivityPoint))).length ≤ 50 ∧
    (createRouteSignature ((List.range 99).map fun i : ℕ =>
      (⟨(i : ℝ), 0⟩ : ActivityPoint))).bearings.length = 98 := by
  have hlen : ((List.range 99).map fun i : ℕ =>
      (⟨(i : ℝ), 0⟩ : ActivityPoint)).length = 99 := by
    simp
  have hsp : (samplePoints ((List.range 99).map fun i : ℕ =>
      (⟨(i : ℝ), 0⟩ : ActivityPoint))).length = 99 := by
    simp only [samplePoints, hlen]
    norm_num
  refine ⟨hsp, by omega, ?_⟩
  rw [createRouteSignature_bearings_length _ (by rw [hlen]; omega), hsp]

/-- C3 (amended): `createRouteSignature` down-samples with the uniform stride
`floor(n / min(50, n))` and always retains the final point (appending it when
it falls between strides), but the bound is at most 99 sampled points — not
50 — hence at most 98 bearings; the n ∈ [51, 99] range is not down-sampled
at all since the stride floors to 1. -/
theorem createRouteSignature_downsample (points : List ActivityPoint) :
    (samplePoints points).length ≤ 99 ∧
    (createRouteSignature points).bearings.length ≤ 98 ∧
    (2 ≤ points.length → (samplePoints points).getLast? = points.getLast?) := by
  refine ⟨samplePoints_length_le points, ?_, samplePoints_getLast points⟩
  rcases lt_or_le points.length 2 with h2 | h2
  · simp [createRouteSignature, if_pos h2]
  · rw [createRouteSignature_bearings_length points h2]
    have := samplePoints_length_le points
    omega

/-- C3 witness: the amended theorem at a concrete 2-point track. -/
theorem createRouteSignature_downsample_witness :
    (samplePoints [(⟨0, 0⟩ : ActivityPoint), ⟨1, 0⟩]).getLast? =
      [(⟨0, 0⟩ : ActivityPoint), ⟨1, 0⟩].getLast? :=
  (createRouteSignature_downsample [⟨0, 0⟩, ⟨1, 0⟩]).2.2 (by simp)

/-! ## C6 -/

theorem euclideanDistance_nonneg (a b : List ℝ) : 0 ≤ euclideanDistance a b := by
  unfold euclideanDistance
  exact Real.sqrt_nonneg _

theorem foldl_add_dist_nonneg (p : List ℝ) :
    ∀ (l : List (List ℝ)) (acc : ℝ), 0 ≤ acc →
      0 ≤ l.foldl (fun sum point => sum + euclideanDistance p point) acc := by
  intro l
  induction l with
  | nil => intro acc h; simpa using h
  | cons x xs ih =>
    intro acc h
    exact ih _ (add_nonneg h (euclideanDistance_nonneg _ _))

theorem silhouetteA_nonneg (data : List (List ℝ)) (labels : List ℕ) (i : ℕ) :
    0 ≤ silhouetteA data labels i := by
  simp only [silhouetteA]
  split
  · exact le_rfl
  · exact div_nonneg (foldl_add_dist_nonneg _ _ 0 le_rfl) (Nat.cast_nonneg _)

theorem silhouetteB_foldl_nonneg (data : List (List ℝ)) (labels : List ℕ) (i : ℕ) :
    ∀ (cs : List ℕ) (acc : Option ℝ),
      (∀ v, acc = some v → 0 ≤ v) →
      ∀ bv, cs.foldl (silhouetteBStep data labels i) acc = some bv → 0 ≤ bv := by
  intro cs
  induction cs with
  | nil => intro acc h bv hbv; exact h bv (by simpa using hbv)
  | cons c cs ih =>
    intro acc h bv hbv
    rw [List.foldl_cons] at hbv
    refine ih _ ?_ bv hbv
    intro v hv
    simp only [silhouetteBStep] at hv
    by_cases h1 : c = labels.getD i 0
    · rw [if_pos h1] at hv; exact h v hv
    · rw [if_neg h1] at hv
      by_cases h2 : clusterPointsOf data labels c none = []
      · rw [if_pos h2] at hv; exact h v hv
      · rw [if_neg h2] at hv
        have havg : 0 ≤ ((clusterPointsOf data labels c none).foldl
            (fun sum point => sum + euclideanDistance (data.getD i []) point) 0) /
            (clusterPointsOf data labels c none).length :=
          div_nonneg (foldl_add_dist_nonneg _ _ 0 le_rfl) (Nat.cast_nonneg _)
        cases hacc : acc with
        | none =>
          rw [hacc] at hv
          obtain rfl : _ = v := by simpa using hv
          simpa using havg
        | some m =>
          rw [hacc] at hv
          obtain rfl : min m _ = v := by simpa using hv
          refine le_min (h m hacc) ?_
          simpa using havg

theorem silhouettePoint_bounds (data : List (List ℝ)) (labels : List ℕ)
    (k i : ℕ) (q : ℝ) (h : silhouettePoint data labels k i = some q) :
    -1 ≤ q ∧ q ≤ 1 := by
  unfold silhouettePoint at h
  cases hb : silhouetteB data labels k i with
  | none => rw [hb] at h; simp at h
  | some bv =>
    rw [hb] at h
    simp only [] at h
    by_cases hm : max (silhouetteA data labels i) bv = 0
    · rw [if_pos hm] at h; simp at h
    · rw [if_neg hm] at h
      obtain rfl : (bv - silhouetteA data labels i) /
          max (silhouetteA data labels i) bv = q := by simpa using h
      have ha : 0 ≤ silhouetteA data labels i := silhouetteA_nonneg data labels i
      have hbv : 0 ≤ bv :=
        silhouetteB_foldl_nonneg data labels i (List.range k) none (by simp) bv hb
      have hmax : 0 < max (silhouetteA data labels i) bv :=
        lt_of_le_of_ne (le_trans ha (le_max_left _ _)) (Ne.symm hm)
      constructor
      · rw [le_div_iff hmax]
        have := le_max_left (silhouetteA data labels i) bv
        linarith
      · rw [div_le_one hmax]
        have := le_max_right (silhouetteA data labels i) bv
        linarith

theorem foldl_optsum_bounds :
    ∀ (l : List (Option ℝ)) (acc : ℝ),
      (∀ s ∈ l, ∃ v, s = some v ∧ -1 ≤ v ∧ v ≤ 1) →
      acc - l.length ≤ l.foldl (fun t s => t + s.getD 0) acc ∧
        l.foldl (fun t s => t + s.getD 0) acc ≤ acc + l.length := by
  intro l
  induction l with
  | nil => intro acc _; simp
  | cons s ss ih =>
    intro acc h
    obtain ⟨v, rfl, hv1, hv2⟩ := h s (List.mem_cons_self _ _)
    have hrest := ih (acc + v) (fun x hx => h x (List.mem_cons_of_mem _ hx))
    rw [List.foldl_cons]
    simp only [Option.getD_some, List.length_cons, Nat.cast_add, Nat.cast_one]
    exact ⟨by linarith [hrest.1], by linarith [hrest.2]⟩

/-- C6 (counterexample): on the dataset `[[0],[0]]` with labels `[0,1]` —
two coincident points split across two clusters — `a(0) = 0` and `b(0) = 0`,
so per-point silhouette is `0/0` = NaN (`none`): the returned score is NaN,
not a value in `[-1, 1]`, and in particular not 0. -/
theorem silhouetteScore_nan :
    silhouetteScore [[(0 : ℝ)], [0]] [0, 1] = none := by
  have hA : silhouetteA [[(0 : ℝ)], [0]] [0, 1] 0 = 0 := by
    simp [silhouetteA, clusterPointsOf, List.filter]
  have hB : silhouetteB [[(0 : ℝ)], [0]] [0, 1] 2 0 = some 0 := by
    simp [silhouetteB, silhouetteBStep, clusterPointsOf, List.filter,
      euclideanDistance, List.range_succ]
  have hP : silhouettePoint [[(0 : ℝ)], [0]] [0, 1] 2 0 = none := by
    simp [silhouettePoint, hA, hB]
  simp [silhouetteScore, List.range_succ, hP]

/-- C6 (amended): whenever `silhouetteScore` returns a numeric value (it
returns NaN when some point's `a(i)` and `b(i)` are both zero, or when no
cluster other than the point's own is nonempty), that value lies in
`[-1, 1]`; a labeling whose labels are all `0` (`k = max(labels)+1 = 1`), or
an empty dataset, scores exactly 0. -/
theorem silhouetteScore_bounds :
    (∀ (data : List (List ℝ)) (labels : List ℕ) (q : ℝ),
        silhouetteScore data labels = some q → -1 ≤ q ∧ q ≤ 1) ∧
    (∀ (data : List (List ℝ)) (labels : List ℕ),
        labels.foldl max 0 = 0 ∨ data = [] →
        silhouetteScore data labels = some 0) := by
  constructor
  · intro data labels q h
    simp only [silhouetteScore] at h
    by_cases hg : labels.foldl max 0 + 1 = 1 ∨ data.length = 0
    · rw [if_pos hg] at h
      obtain rfl : (0 : ℝ) = q := by simpa using h
      norm_num
    · rw [if_neg hg] at h
      by_cases hc : ((List.range data.length).map
          (silhouettePoint data labels (labels.foldl max 0 + 1))).contains none
      · rw [if_pos hc] at h; simp at h
      · rw [if_neg hc] at h
        obtain rfl : (((List.range data.length).map
            (silhouettePoint data labels (labels.foldl max 0 + 1))).foldl
              (fun t s => t + s.getD 0) 0) / data.length = q := by simpa using h
        have hnone : none ∉ (List.range data.length).map
            (silhouettePoint data labels (labels.foldl max 0 + 1)) := by
          simpa using hc
        have hall : ∀ s ∈ (List.range data.length).map
            (silhouettePoint data labels (labels.foldl max 0 + 1)),
            ∃ v, s = some v ∧ -1 ≤ v ∧ v ≤ 1 := by
          intro s hs
          cases s with
          | none => exact absurd hs hnone
          | some v =>
            obtain ⟨i, _, hi⟩ := List.mem_map.mp hs
            exact ⟨v, rfl, silhouettePoint_bounds data labels _ i v hi⟩
        have hb := foldl_optsum_bounds _ 0 hall
        have hlen : ((List.range data.length).map
            (silhouettePoint data labels (labels.foldl max 0 + 1))).length =
            data.length := by simp
        rw [hlen] at hb
        have hn : data.length ≠ 0 := fun hcon => hg (Or.inr hcon)
        have hnpos : (0 : ℝ) < data.length :=
          Nat.cast_pos.mpr (Nat.pos_of_ne_zero hn)
        constructor
        · rw [le_div_iff hnpos]
          linarith [hb.1]
        · rw [div_le_one hnpos]
          linarith [hb.2]
  · intro data labels h
    rcases h with h | rfl
    · simp [silhouetteScore, h]
    · simp [silhouetteScore]

/-- C6 witness: the amended theorem at concrete inputs — the all-zero
labeling of the one-point dataset `[[0]]` scores exactly `some 0`, and that
value is within `[-1, 1]`. -/
theorem silhouetteScore_bounds_witness :
    silhouetteScore [[(0 : ℝ)]] [0] = some 0 ∧ (-1 : ℝ) ≤ 0 ∧ (0 : ℝ) ≤ 1 := by
  have h0 : silhouetteScore [[(0 : ℝ)]] [0] = some 0 :=
    silhouetteScore_bounds.2 [[(0 : ℝ)]] [0] (Or.inl rfl)
  exact ⟨h0, silhouetteScore_bounds.1 [[(0 : ℝ)]] [0] 0 h0⟩

/-! ## C9 -/

theorem foldl_add_eq_sum (l : List ℝ) (a : ℝ) : l.foldl (· + ·) a = a + l.sum := by
  induction l generalizing a with
  | nil => simp
  | cons x xs ih => simp [ih, add_assoc]

theorem sum_map_sub_const (l : List ℝ) (m : ℝ) :
    (l.map fun x => x - m).sum = l.sum - l.length * m := by
  induction l with
  | nil => simp
  | cons x xs ih =>
    simp only [List.map_cons, List.sum_cons, ih, List.length_cons]
    push_cast
    ring

theorem getD_zipWith_range (g : ℝ → ℕ → ℝ) (row : List ℝ) (j : ℕ)
    (h : j < row.length) :
    (List.zipWith g row (List.range row.length)).getD j 0 = g (row.getD j 0) j := by
  have hz : j < (List.zipWith g row (List.range row.length)).length := by
    simp [List.length_zipWith, h]
  rw [List.getD_eq_getElem?_getD, List.getElem?_eq_getElem hz,
    List.getElem_zipWith, List.getElem_range, List.getD_eq_getElem?_getD,
    List.getElem?_eq_getElem h]
  rfl

theorem column_length (data : List (List ℝ)) (j : ℕ) :
    (column data j).length = data.length := by
  simp [column]

theorem colMean_as_sum (data : List (List ℝ)) (j : ℕ) :
    colMean data j = (column data j).sum / data.length := by
  rw [colMean, foldl_add_eq_sum, zero_add]

theorem colStd_as_sum (data : List (List ℝ)) (j : ℕ) :
    colStd data j = Real.sqrt
      ((((column data j).map fun x => (x - colMean data j) ^ 2).sum) / data.length) := by
  rw [colStd, foldl_add_eq_sum, zero_add]

/-- C9: for a nonempty rectangular dataset, `standardize` succeeds; a
zero-variance column is mapped to `0` for every row, and any other column of
the z-scored output has, by the program's own column statistics, mean
exactly 0 and population standard deviation exactly 1. -/
theorem standardize_spec (data : List (List ℝ)) (d : ℕ)
    (hne : data ≠ []) (hrect : ∀ row ∈ data, row.length = d) :
    ∃ scaled means stds, standardize data = some (scaled, means, stds) ∧
      ∀ j < d,
        (colStd data j = 0 → column scaled j = List.replicate data.length 0) ∧
        (colStd data j ≠ 0 → colMean scaled j = 0 ∧ colStd scaled j = 1) := by
  obtain ⟨row0, rest, rfl⟩ := List.exists_cons_of_ne_nil hne
  refine ⟨_, _, _, rfl, ?_⟩
  intro j hj
  set S := (row0 :: rest).map fun row =>
    List.zipWith (fun val jj =>
      if colStd (row0 :: rest) jj = 0 then 0
      else (val - colMean (row0 :: rest) jj) / colStd (row0 :: rest) jj)
      row (List.range row.length) with hSdef
  set m := colMean (row0 :: rest) j with hmdef
  set s := colStd (row0 :: rest) j with hsdef
  have hcol : column S j = (column (row0 :: rest) j).map fun x =>
      if s = 0 then 0 else (x - m) / s := by
    rw [hSdef]
    simp only [column, List.map_map]
    refine List.map_congr_left ?_
    intro row hrow
    have hlen : j < row.length := by rw [hrect row hrow]; exact hj
    exact getD_zipWith_range _ row j hlen
  have hSlen : S.length = (row0 :: rest).length := by rw [hSdef]; simp
  have hn0 : (((row0 :: rest).length : ℕ) : ℝ) ≠ 0 := by
    simp only [List.length_cons]
    push_cast
    positivity
  by_cases hs : s = 0
  · refine ⟨fun _ => ?_, fun hns => absurd hs hns⟩
    rw [hcol]
    simp [hs, column_length]
  · refine ⟨fun hz => absurd hz hs, fun _ => ?_⟩
    have hsum0 : (column S j).sum = 0 := by
      rw [hcol]
      have hmm : ((column (row0 :: rest) j).map fun x =>
          if s = 0 then 0 else (x - m) / s)
          = (column (row0 :: rest) j).map fun x => (x - m) * s⁻¹ :=
        List.map_congr_left fun x _ => by rw [if_neg hs, div_eq_mul_inv]
      rw [hmm, List.sum_map_mul_right, sum_map_sub_const, column_length,
        hmdef, colMean_as_sum]
      field_simp
    have hmean : colMean S j = 0 := by
      rw [colMean_as_sum, hsum0, zero_div]
    refine ⟨hmean, ?_⟩
    set V := ((column (row0 :: rest) j).map fun x => (x - m) ^ 2).sum with hVdef
    have hVnn : 0 ≤ V := by
      rw [hVdef]
      refine List.sum_nonneg ?_
      intro x hx
      obtain ⟨y, _, rfl⟩ := List.mem_map.mp hx
      positivity
    have hs2 : s ^ 2 = V / ((row0 :: rest).length : ℝ) := by
      rw [hsdef, colStd_as_sum]
      exact Real.sq_sqrt (div_nonneg hVnn (Nat.cast_nonneg _))
    have hVne : V ≠ 0 := by
      intro hV
      apply hs
      rw [hsdef, colStd_as_sum, show ((column (row0 :: rest) j).map fun x =>
        (x - colMean (row0 :: rest) j) ^ 2).sum = V from rfl, hV, zero_div,
        Real.sqrt_zero]
    have hcolsq : ((column S j).map fun x => (x - 0) ^ 2).sum = V * (s ^ 2)⁻¹ := by
      rw [hcol, List.map_map]
      have hcomp : ((fun x => (x - 0) ^ 2) ∘ fun x =>
          if s = 0 then 0 else (x - m) / s)
          = fun x => (x - m) ^ 2 * (s ^ 2)⁻¹ := by
        funext x
        simp only [Function.comp_apply, if_neg hs, sub_zero, div_pow]
        rw [div_eq_mul_inv]
      rw [hcomp, List.sum_map_mul_right]
    rw [colStd_as_sum, hmean, hSlen, hcolsq, hs2]
    have harg : V * (V / ((row0 :: rest).length : ℝ))⁻¹ /
        ((row0 :: rest).length : ℝ) = 1 := by
      field_simp
    rw [harg, Real.sqrt_one]

/-- C9 witness: the theorem at the concrete dataset `[[0],[2]]` with `d = 1`. -/
theorem standardize_spec_witness :
    ∃ scaled means stds, standardize [[(0 : ℝ)], [2]] = some (scaled, means, stds) ∧
      ∀ j < 1,
        (colStd [[(0 : ℝ)], [2]] j = 0 →
          column scaled j = List.replicate ([[(0 : ℝ)], [2]].length) 0) ∧
        (colStd [[(0 : ℝ)], [2]] j ≠ 0 →
          colMean scaled j = 0 ∧ colStd scaled j = 1) :=
  standardize_spec [[(0 : ℝ)], [2]] 1 (by simp)
    (by
      intro row hrow
      simp only [List.mem_cons, List.not_mem_nil, or_false] at hrow
      rcases hrow with rfl | rfl <;> simp)

/-! ## C7 -/

theorem haversineDistance_comm (lat1 lng1 lat2 lng2 : ℝ) :
    haversineDistance lat1 lng1 lat2 lng2 = haversineDistance lat2 lng2 lat1 lng1 := by
  simp only [haversineDistance]
  have h1 : (lat1 - lat2) * Real.pi / 180 / 2 = -((lat2 - lat1) * Real.pi / 180 / 2) := by
    ring
  have h2 : (lng1 - lng2) * Real.pi / 180 / 2 = -((lng2 - lng1) * Real.pi / 180 / 2) := by
    ring
  rw [h1, h2, Real.sin_neg, Real.sin_neg]
  ring_nf

theorem bearingDiff_comm (x y : ℝ) : bearingDiff x y = bearingDiff y x := by
  unfold bearingDiff
  rw [abs_sub_comm]

theorem bearingDiffStep_comm (I1 I2 : List (Option ℝ)) (t : Option ℝ) (j : ℕ) :
    bearingDiffStep I1 I2 t j = bearingDiffStep I2 I1 t j := by
  unfold bearingDiffStep
  rcases t with _ | tv <;>
    rcases h1 : I1.getD j (some 0) with _ | x <;>
    rcases h2 : I2.getD j (some 0) with _ | y <;>
    simp [bearingDiff_comm]

theorem foldl_bearingDiffStep_comm (I1 I2 : List (Option ℝ)) (l : List ℕ) :
    ∀ t : Option ℝ,
      l.foldl (bearingDiffStep I1 I2) t = l.foldl (bearingDiffStep I2 I1) t := by
  induction l with
  | nil => intro t; rfl
  | cons j js ih =>
    intro t
    simp only [List.foldl_cons]
    rw [bearingDiffStep_comm, ih]

theorem compareBearingSequences_comm (b1 b2 : List ℝ) :
    compareBearingSequences b1 b2 = compareBearingSequences b2 b1 := by
  simp only [compareBearingSequences]
  rw [min_comm b2.length b1.length, foldl_bearingDiffStep_comm]

/-- C7: `compareSignatures` is symmetric: the empty-bearings guard, the
location score (haversine distances of swapped endpoints), the distance
ratio and the bearing-sequence score are all symmetric in the two
signatures. -/
theorem compareSignatures_comm (sig1 sig2 : RouteSignature) :
    compareSignatures sig1 sig2 = compareSignatures sig2 sig1 := by
  simp only [compareSignatures]
  by_cases h1 : sig1.bearings.length = 0 <;> by_cases h2 : sig2.bearings.length = 0
  · simp [h1, h2]
  · simp [h1, h2]
  · simp [h1, h2]
  · rw [if_neg (show ¬(sig1.bearings.length = 0 ∨ sig2.bearings.length = 0) by
        tauto),
      if_neg (show ¬(sig2.bearings.length = 0 ∨ sig1.bearings.length = 0) by
        tauto),
      haversineDistance_comm sig1.startPoint.lat sig1.startPoint.lng
        sig2.startPoint.lat sig2.startPoint.lng,
      haversineDistance_comm sig1.endPoint.lat sig1.endPoint.lng
        sig2.endPoint.lat sig2.endPoint.lng,
      abs_sub_comm sig1.totalDistance sig2.totalDistance,
      max_comm sig1.totalDistance sig2.totalDistance,
      compareBearingSequences_comm]

/-! ## C8 -/

theorem atan2_nonneg (y x : ℝ) (h : 0 ≤ y) : 0 ≤ atan2 y x :=
  Complex.arg_nonneg_iff.mpr h

theorem haversineDistance_nonneg (lat1 lng1 lat2 lng2 : ℝ) :
    0 ≤ haversineDistance lat1 lng1 lat2 lng2 := by
  simp only [haversineDistance]
  refine mul_nonneg (by norm_num) (mul_nonneg (by norm_num) ?_)
  exact atan2_nonneg _ _ (Real.sqrt_nonneg _)

theorem jsMod_range (v : ℝ) : -360 < jsMod v 360 ∧ jsMod v 360 < 360 := by
  unfold jsMod rtrunc
  have hv : 360 * (v / 360) = v := mul_div_cancel₀ v (by norm_num)
  by_cases hq : 0 ≤ v / 360
  · rw [if_pos hq]
    have h1 : 0 ≤ v / 360 - ⌊v / 360⌋ := by
      have := Int.fract_nonneg (v / 360)
      rw [Int.fract] at this
      linarith
    have h2 : v / 360 - ⌊v / 360⌋ < 1 := by
      have := Int.fract_lt_one (v / 360)
      rw [Int.fract] at this
      linarith
    constructor <;> nlinarith
  · rw [if_neg hq]
    have h1 : v / 360 - ⌈v / 360⌉ ≤ 0 := by
      have := Int.le_ceil (v / 360)
      linarith
    have h2 : -1 < v / 360 - ⌈v / 360⌉ := by
      have := Int.ceil_lt_add_one (v / 360)
      linarith
    constructor <;> nlinarith

theorem jsMod_fix_mem (v : ℝ) :
    0 ≤ (if jsMod v 360 < 0 then jsMod v 360 + 360 else jsMod v 360) ∧
      (if jsMod v 360 < 0 then jsMod v 360 + 360 else jsMod v 360) < 360 := by
  have h := jsMod_range v
  by_cases hneg : jsMod v 360 < 0
  · rw [if_pos hneg]
    constructor <;> linarith [h.1]
  · rw [if_neg hneg]
    exact ⟨le_of_not_lt hneg, h.2⟩

theorem getD_mem_of_lt {α : Type} (l : List α) (i : ℕ) (d : α) (h : i < l.length) :
    l.getD i d ∈ l := by
  rw [List.getD_eq_getElem?_getD, List.getElem?_eq_getElem h]
  exact List.getElem_mem h

theorem interpolateBearings_mem (bearings : List ℝ) (targetLen : ℕ)
    (hb : ∀ y ∈ bearings, 0 ≤ y ∧ y < 360) :
    ∀ o ∈ interpolateBearings bearings targetLen, ∀ x, o = some x →
      0 ≤ x ∧ x < 360 := by
  intro o ho x hx
  simp only [interpolateBearings] at ho
  by_cases h0 : bearings.length = 0
  · rw [if_pos h0] at ho
    rw [List.eq_of_mem_replicate ho] at hx
    rw [Option.some_inj] at hx
    rw [← hx]
    norm_num
  · rw [if_neg h0] at ho
    by_cases h1 : bearings.length = targetLen
    · rw [if_pos h1] at ho
      obtain ⟨y, hy, hyo⟩ := List.mem_map.mp ho
      rw [← hyo, Option.some_inj] at hx
      rw [← hx]
      exact hb y hy
    · rw [if_neg h1] at ho
      obtain ⟨i, _, hbody⟩ := List.mem_map.mp ho
      by_cases hT : targetLen = 1
      · rw [if_pos hT] at hbody
        rw [← hbody] at hx
        exact absurd hx (by simp)
      · rw [if_neg hT] at hbody
        by_cases hc : (bearings.length : ℤ) - 1 ≤
            ⌊(i : ℝ) * (((bearings.length : ℝ) - 1) / ((targetLen : ℝ) - 1))⌋
        · rw [if_pos hc] at hbody
          rw [← hbody, Option.some_inj] at hx
          rw [← hx]
          refine hb _ (getD_mem_of_lt _ _ _ ?_)
          have : 0 < bearings.length := Nat.pos_of_ne_zero h0
          omega
        · rw [if_neg hc] at hbody
          rw [← hbody, Option.some_inj] at hx
          rw [← hx]
          exact jsMod_fix_mem _

theorem interpolateBearings_isSome (bearings : List ℝ) (targetLen : ℕ)
    (h : targetLen ≠ 1 ∨ bearings.length = targetLen ∨ bearings.length = 0) :
    ∀ o ∈ interpolateBearings bearings targetLen, o.isSome := by
  intro o ho
  simp only [interpolateBearings] at ho
  by_cases h0 : bearings.length = 0
  · rw [if_pos h0] at ho
    rw [List.eq_of_mem_replicate ho]
    rfl
  · rw [if_neg h0] at ho
    by_cases h1 : bearings.length = targetLen
    · rw [if_pos h1] at ho
      obtain ⟨y, _, hyo⟩ := List.mem_map.mp ho
      rw [← hyo]
      rfl
    · rw [if_neg h1] at ho
      have hT : targetLen ≠ 1 := by tauto
      obtain ⟨i, _, hbody⟩ := List.mem_map.mp ho
      rw [if_neg hT] at hbody
      rw [← hbody]
      by_cases hc : (bearings.length : ℤ) - 1 ≤
          ⌊(i : ℝ) * (((bearings.length : ℝ) - 1) / ((targetLen : ℝ) - 1))⌋
      · rw [if_pos hc]
        rfl
      · rw [if_neg hc]
        rfl

theorem getD_opt_range (l : List (Option ℝ)) (i : ℕ)
    (h : ∀ o ∈ l, ∀ x, o = some x → 0 ≤ x ∧ x < 360) :
    ∀ x, l.getD i (some 0) = some x → 0 ≤ x ∧ x < 360 := by
  intro x hx
  by_cases hi : i < l.length
  · exact h _ (getD_mem_of_lt _ _ _ hi) x hx
  · rw [List.getD_eq_getElem?_getD, List.getElem?_eq_none (not_lt.mp hi)] at hx
    have h0 : (0 : ℝ) = x := by simpa using hx
    rw [← h0]
    norm_num

theorem getD_opt_isSome (l : List (Option ℝ)) (i : ℕ)
    (h : ∀ o ∈ l, o.isSome) : (l.getD i (some 0)).isSome := by
  by_cases hi : i < l.length
  · exact h _ (getD_mem_of_lt _ _ _ hi)
  · rw [List.getD_eq_getElem?_getD, List.getElem?_eq_none (not_lt.mp hi)]
    rfl

theorem bearingDiff_bounds (x y : ℝ) (hx : 0 ≤ x ∧ x < 360) (hy : 0 ≤ y ∧ y < 360) :
    0 ≤ bearingDiff x y ∧ bearingDiff x y ≤ 180 := by
  simp only [bearingDiff]
  have habs1 : |x - y| < 360 := by
    rw [abs_sub_lt_iff]
    constructor <;> linarith [hx.1, hx.2, hy.1, hy.2]
  by_cases hgt : 180 < |x - y|
  · rw [if_pos hgt]
    constructor <;> linarith
  · rw [if_neg hgt]
    exact ⟨abs_nonneg _, le_of_not_lt hgt⟩

theorem bearingDiffStep_some_eval (I1 I2 : List (Option ℝ)) (acc : ℝ) (j : ℕ)
    (x y : ℝ) (hx : I1.getD j (some 0) = some x)
    (hy : I2.getD j (some 0) = some y) :
    bearingDiffStep I1 I2 (some acc) j = some (acc + bearingDiff x y) := by
  unfold bearingDiffStep
  rw [hx, hy]

theorem bearingDiffStep_none (I1 I2 : List (Option ℝ)) (j : ℕ) :
    bearingDiffStep I1 I2 none j = none := rfl

theorem foldl_bearingDiffStep_none (I1 I2 : List (Option ℝ)) :
    ∀ l : List ℕ, l.foldl (bearingDiffStep I1 I2) none = none := by
  intro l
  induction l with
  | nil => rfl
  | cons j js ih =>
    rw [List.foldl_cons, bearingDiffStep_none]
    exact ih

theorem foldl_bearingDiffStep_bounds (I1 I2 : List (Option ℝ))
    (h1 : ∀ o ∈ I1, ∀ x, o = some x → 0 ≤ x ∧ x < 360)
    (h2 : ∀ o ∈ I2, ∀ x, o = some x → 0 ≤ x ∧ x < 360) :
    ∀ (l : List ℕ) (acc tv : ℝ),
      l.foldl (bearingDiffStep I1 I2) (some acc) = some tv →
      acc ≤ tv ∧ tv ≤ acc + 180 * l.length := by
  intro l
  induction l with
  | nil =>
    intro acc tv h
    have hat : acc = tv := by simpa using h
    rw [← hat]
    simp
  | cons j js ih =>
    intro acc tv h
    rw [List.foldl_cons] at h
    cases hx : I1.getD j (some 0) with
    | none =>
      rw [show bearingDiffStep I1 I2 (some acc) j = none from by
          unfold bearingDiffStep; rw [hx],
        foldl_bearingDiffStep_none] at h
      exact absurd h (by simp)
    | some x =>
      cases hy : I2.getD j (some 0) with
      | none =>
        rw [show bearingDiffStep I1 I2 (some acc) j = none from by
            unfold bearingDiffStep; rw [hx, hy],
          foldl_bearingDiffStep_none] at h
        exact absurd h (by simp)
      | some y =>
        rw [bearingDiffStep_some_eval I1 I2 acc j x y hx hy] at h
        have hr := ih (acc + bearingDiff x y) tv h
        have hd := bearingDiff_bounds x y (getD_opt_range I1 j h1 x hx)
          (getD_opt_range I2 j h2 y hy)
        rw [List.length_cons]
        push_cast
        exact ⟨by linarith [hr.1, hd.1], by linarith [hr.2, hd.2]⟩

theorem foldl_bearingDiffStep_isSome (I1 I2 : List (Option ℝ))
    (h1 : ∀ o ∈ I1, o.isSome) (h2 : ∀ o ∈ I2, o.isSome) :
    ∀ (l : List ℕ) (acc : ℝ),
      ∃ tv, l.foldl (bearingDiffStep I1 I2) (some acc) = some tv := by
  intro l
  induction l with
  | nil => intro acc; exact ⟨acc, rfl⟩
  | cons j js ih =>
    intro acc
    obtain ⟨x, hx⟩ := Option.isSome_iff_exists.mp (getD_opt_isSome I1 j h1)
    obtain ⟨y, hy⟩ := Option.isSome_iff_exists.mp (getD_opt_isSome I2 j h2)
    rw [List.foldl_cons, bearingDiffStep_some_eval I1 I2 acc j x y hx hy]
    exact ih (acc + bearingDiff x y)

theorem compareBearingSequences_bounds (b1 b2 : List ℝ)
    (h1 : ∀ y ∈ b1, 0 ≤ y ∧ y < 360) (h2 : ∀ y ∈ b2, 0 ≤ y ∧ y < 360) :
    ∀ q, compareBearingSequences b1 b2 = some q → 0 ≤ q ∧ q ≤ 1 := by
  intro q hq
  simp only [compareBearingSequences] at hq
  obtain ⟨tv, htv, hqe⟩ := Option.map_eq_some'.mp hq
  have hI1 := interpolateBearings_mem b1 (min (min b1.length b2.length) 30) h1
  have hI2 := interpolateBearings_mem b2 (min (min b1.length b2.length) 30) h2
  have hf := foldl_bearingDiffStep_bounds _ _ hI1 hI2
    (List.range (min (min b1.length b2.length) 30)) 0 tv htv
  rw [List.length_range] at hf
  rcases Nat.eq_zero_or_pos (min (min b1.length b2.length) 30) with hT | hT
  · have htv0 : tv = 0 := by
      rw [hT] at hf
      push_cast at hf
      linarith [hf.1, hf.2]
    rw [hT] at hqe
    rw [← hqe, htv0]
    norm_num
  · have hTpos : (0 : ℝ) < 180 * (min (min b1.length b2.length) 30 : ℕ) := by
      have : (0 : ℝ) < (min (min b1.length b2.length) 30 : ℕ) := by
        exact_mod_cast hT
      linarith
    rw [← hqe]
    constructor
    · exact div_nonneg (by linarith [hf.1]) (le_of_lt hTpos)
    · rw [div_le_one hTpos]
      linarith [hf.2]

theorem compareBearingSequences_isSome (b1 b2 : List ℝ)
    (h : min b1.length b2.length ≠ 1 ∨ (b1.length = 1 ∧ b2.length = 1)) :
    ∃ q, compareBearingSequences b1 b2 = some q := by
  simp only [compareBearingSequences]
  have hs1 : ∀ o ∈ interpolateBearings b1 (min (min b1.length b2.length) 30),
      o.isSome := by
    apply interpolateBearings_isSome
    rcases h with h | ⟨ha, hb⟩
    · left; omega
    · right; left; omega
  have hs2 : ∀ o ∈ interpolateBearings b2 (min (min b1.length b2.length) 30),
      o.isSome := by
    apply interpolateBearings_isSome
    rcases h with h | ⟨ha, hb⟩
    · left; omega
    · right; left; omega
  obtain ⟨tv, htv⟩ := foldl_bearingDiffStep_isSome _ _ hs1 hs2
    (List.range (min (min b1.length b2.length) 30)) 0
  rw [htv]
  exact ⟨_, rfl⟩

/-- C8: for signatures satisfying the data-model invariants (bearings in
`[0, 360)` as produced by the builder's `(bearing + 360) % 360`
normalisation, nonnegative total distances as produced by summing haversine
distances): every numeric value `compareSignatures` returns lies in
`[0, 1]`; it returns exactly `1.0` whenever either bearings sequence is
empty; and it does return a numeric value (not NaN) whenever the totals are
not both `0` and the bearing counts avoid the interpolation's NaN case
(`targetLen = min(len1, len2, 30) = 1` with some sequence longer than 1,
where `ratio = (len - 1)/0 = Infinity` and `pos = 0 * Infinity = NaN`). -/
theorem compareSignatures_bounds (sig1 sig2 : RouteSignature)
    (hb1 : ∀ y ∈ sig1.bearings, 0 ≤ y ∧ y < 360)
    (hb2 : ∀ y ∈ sig2.bearings, 0 ≤ y ∧ y < 360)
    (ht1 : 0 ≤ sig1.totalDistance) (ht2 : 0 ≤ sig2.totalDistance) :
    (∀ q, compareSignatures sig1 sig2 = some q → 0 ≤ q ∧ q ≤ 1) ∧
    (sig1.bearings.length = 0 ∨ sig2.bearings.length = 0 →
      compareSignatures sig1 sig2 = some 1) ∧
    (¬(sig1.totalDistance = 0 ∧ sig2.totalDistance = 0) →
      (min sig1.bearings.length sig2.bearings.length ≠ 1 ∨
        (sig1.bearings.length = 1 ∧ sig2.bearings.length = 1)) →
      ∃ q, compareSignatures sig1 sig2 = some q) := by
  have hsd := haversineDistance_nonneg sig1.startPoint.lat sig1.startPoint.lng
    sig2.startPoint.lat sig2.startPoint.lng
  have hed := haversineDistance_nonneg sig1.endPoint.lat sig1.endPoint.lng
    sig2.endPoint.lat sig2.endPoint.lng
  have hL0 : (0 : ℝ) ≤ min ((haversineDistance sig1.startPoint.lat
      sig1.startPoint.lng sig2.startPoint.lat sig2.startPoint.lng +
      haversineDistance sig1.endPoint.lat sig1.endPoint.lng
        sig2.endPoint.lat sig2.endPoint.lng) / 10000) 1.0 :=
    le_min (div_nonneg (add_nonneg hsd hed) (by norm_num)) (by norm_num)
  have hL1 : min ((haversineDistance sig1.startPoint.lat
      sig1.startPoint.lng sig2.startPoint.lat sig2.startPoint.lng +
      haversineDistance sig1.endPoint.lat sig1.endPoint.lng
        sig2.endPoint.lat sig2.endPoint.lng) / 10000) 1.0 ≤ 1 :=
    le_trans (min_le_right _ _) (by norm_num)
  refine ⟨?_, ?_, ?_⟩
  · intro q hq
    simp only [compareSignatures] at hq
    by_cases hg : sig1.bearings.length = 0 ∨ sig2.bearings.length = 0
    · rw [if_pos hg, Option.some_inj] at hq
      rw [← hq]
      norm_num
    · rw [if_neg hg] at hq
      cases hcb : compareBearingSequences sig1.bearings sig2.bearings with
      | none =>
        rw [hcb] at hq
        simp at hq
      | some bs =>
        rw [hcb] at hq
        have hB := compareBearingSequences_bounds sig1.bearings sig2.bearings
          hb1 hb2 bs hcb
        by_cases hmax : max sig1.totalDistance sig2.totalDistance = 0
        · rw [if_pos hmax] at hq
          by_cases habs : |sig1.totalDistance - sig2.totalDistance| = 0
          · rw [if_pos habs] at hq
            simp at hq
          · rw [if_neg habs] at hq
            simp only [Option.some_inj] at hq
            rw [← hq]
            constructor <;> linarith [hB.1, hB.2]
        · rw [if_neg hmax] at hq
          simp only [Option.some_inj] at hq
          have hmaxpos : 0 < max sig1.totalDistance sig2.totalDistance :=
            (le_max_of_le_left ht1).lt_of_ne (Ne.symm hmax)
          have hr0 : (0 : ℝ) ≤ |sig1.totalDistance - sig2.totalDistance| /
              max sig1.totalDistance sig2.totalDistance :=
            div_nonneg (abs_nonneg _) (le_of_lt hmaxpos)
          have hD0 : (0 : ℝ) ≤ min (|sig1.totalDistance - sig2.totalDistance| /
              max sig1.totalDistance sig2.totalDistance * 2) 1.0 :=
            le_min (by linarith) (by norm_num)
          have hD1 : min (|sig1.totalDistance - sig2.totalDistance| /
              max sig1.totalDistance sig2.totalDistance * 2) 1.0 ≤ 1 :=
            le_trans (min_le_right _ _) (by norm_num)
          rw [← hq]
          constructor <;> linarith [hB.1, hB.2]
  · intro hg
    simp only [compareSignatures]
    rw [if_pos hg]
    norm_num
  · intro hts hlen
    simp only [compareSignatures]
    by_cases hg : sig1.bearings.length = 0 ∨ sig2.bearings.length = 0
    · rw [if_pos hg]
      exact ⟨1, by norm_num⟩
    · rw [if_neg hg]
      obtain ⟨bs, hbs⟩ :=
        compareBearingSequences_isSome sig1.bearings sig2.bearings hlen
      have hmax : ¬ max sig1.totalDistance sig2.totalDistance = 0 := by
        intro h0
        exact hts ⟨le_antisymm (h0 ▸ le_max_left _ _) ht1,
          le_antisymm (h0 ▸ le_max_right _ _) ht2⟩
      rw [hbs, if_neg hmax]
      exact ⟨_, rfl⟩

/-- C8 (counterexample): a signature with a single bearing in `[0, 360)`
against one with two — both satisfying every data-model invariant — makes
`interpolateBearings` hit `targetLen = 1` with a 2-bearing input
(`ratio = (2 - 1)/(1 - 1) = Infinity`, `pos = 0 * Infinity = NaN`,
`bearings[NaN] = undefined`), so `compareSignatures` returns NaN (`none`),
not a score in `[0, 1]`. -/
theorem compareSignatures_nan :
    compareSignatures ⟨[0], [0, 1], 1, ⟨0, 0⟩, ⟨0, 0⟩⟩
      ⟨[10, 20], [0, 1, 2], 2, ⟨0, 0⟩, ⟨0, 0⟩⟩ = none ∧
    (∀ y ∈ [(0 : ℝ)], 0 ≤ y ∧ y < 360) ∧
    (∀ y ∈ [(10 : ℝ), 20], 0 ≤ y ∧ y < 360) ∧
    (0 : ℝ) ≤ 1 ∧ (0 : ℝ) ≤ 2 := by
  refine ⟨?_, ?_, ?_, by norm_num, by norm_num⟩
  · have hn1 : interpolateBearings [(0 : ℝ)] 1 = [some 0] := by
      simp [interpolateBearings]
    have hn2 : interpolateBearings [(10 : ℝ), 20] 1 = [none] := by
      simp [interpolateBearings, List.range_succ]
    have hcb : compareBearingSequences [(0 : ℝ)] [10, 20] = none := by
      simp only [compareBearingSequences, List.length_cons, List.length_nil]
      norm_num
      rw [hn1, hn2]
      rfl
    simp only [compareSignatures]
    rw [if_neg (by norm_num)]
    rw [hcb]
  · intro y hy
    simp only [List.mem_cons, List.not_mem_nil, or_false] at hy
    rw [hy]
    norm_num
  · intro y hy
    simp only [List.mem_cons, List.not_mem_nil, or_false] at hy
    rcases hy with rfl | rfl <;> norm_num

/-- C8 witness: the theorem at concrete signatures — two empty ones (score
exactly `some 1`) and a pair with two bearings each (a numeric score exists
and lies in `[0, 1]`). -/
theorem compareSignatures_bounds_witness :
    (compareSignatures ⟨[], [], 0, ⟨0, 0⟩, ⟨0, 0⟩⟩
      ⟨[], [], 0, ⟨0, 0⟩, ⟨0, 0⟩⟩ = some 1) ∧
    (∃ q, compareSignatures ⟨[0, 90], [0, 1, 2], 1, ⟨0, 0⟩, ⟨0, 0⟩⟩
        ⟨[180, 270], [0, 1, 2], 2, ⟨0, 0⟩, ⟨0, 0⟩⟩ = some q ∧
      0 ≤ q ∧ q ≤ 1) := by
  constructor
  · exact (compareSignatures_bounds ⟨[], [], 0, ⟨0, 0⟩, ⟨0, 0⟩⟩
      ⟨[], [], 0, ⟨0, 0⟩, ⟨0, 0⟩⟩ (by simp) (by simp) le_rfl le_rfl).2.1
      (Or.inl rfl)
  · have h := compareSignatures_bounds ⟨[0, 90], [0, 1, 2], 1, ⟨0, 0⟩, ⟨0, 0⟩⟩
      ⟨[180, 270], [0, 1, 2], 2, ⟨0, 0⟩, ⟨0, 0⟩⟩
      (by
        intro y hy
        simp only [List.mem_cons, List.not_mem_nil, or_false] at hy
        rcases hy with rfl | rfl <;> norm_num)
      (by
        intro y hy
        simp only [List.mem_cons, List.not_mem_nil, or_false] at hy
        rcases hy with rfl | rfl <;> norm_num)
      (by norm_num) (by norm_num)
    obtain ⟨q, hq⟩ := h.2.2 (by norm_num) (Or.inl (by simp))
    exact ⟨q, hq, h.1 q hq⟩

/-! ## C5 -/

theorem findOptimalKGo_no_improve (data : List (List ℝ)) (hne : data ≠ []) :
    ∀ (rest : List ℕ) (bk : ℕ) (bs : ℝ) (bl : List ℕ) (bc : List (List ℝ))
      (all : List ScoreEntry),
      (∀ k' ∈ rest, ∀ s', scoreOf data k' = some s' → s' ≤ bs) →
      ∃ res, findOptimalKGo data rest bk bs bl bc all = some res ∧
        res.k = bk ∧ res.silhouetteScore = bs ∧ res.labels = bl ∧
        res.centroids = bc := by
  intro rest
  induction rest with
  | nil => intro bk bs bl bc all _; exact ⟨_, rfl, rfl, rfl, rfl, rfl⟩
  | cons k rest ih =>
    intro bk bs bl bc all h
    obtain ⟨labels, centroids, hkm, _⟩ := kMeans_of_nonneg_seed data k 100 42 hne (by norm_num)
    rw [findOptimalKGo, hkm]
    simp only []
    cases hsc : silhouetteScore data labels with
    | none => exact ih _ _ _ _ _ fun k' hk' => h k' (List.mem_cons_of_mem _ hk')
    | some s =>
      have hsle : s ≤ bs := h k (List.mem_cons_self _ _) s
        (by rw [scoreOf, hkm]; exact (by simpa using hsc))
      simp only []
      rw [if_neg (not_lt.mpr hsle)]
      exact ih _ _ _ _ _ fun k' hk' => h k' (List.mem_cons_of_mem _ hk')

theorem findOptimalKGo_winner (data : List (List ℝ)) (hne : data ≠ []) :
    ∀ (rest : List ℕ) (bk : ℕ) (bs : ℝ) (bl : List ℕ) (bc : List (List ℝ))
      (all : List ScoreEntry),
      (∃ k' ∈ rest, ∃ s', scoreOf data k' = some s' ∧ bs < s') →
      ∃ res, findOptimalKGo data rest bk bs bl bc all = some res ∧
        ∃ l1 l2, rest = l1 ++ res.k :: l2 ∧
          scoreOf data res.k = some res.silhouetteScore ∧
          bs < res.silhouetteScore ∧
          kMeans data res.k = some (res.labels, res.centroids) ∧
          (∀ k' ∈ l1, ∀ s', scoreOf data k' = some s' →
            s' < res.silhouetteScore) ∧
          (∀ k' ∈ rest, ∀ s', scoreOf data k' = some s' →
            s' ≤ res.silhouetteScore) := by
  intro rest
  induction rest with
  | nil => intro bk bs bl bc all h; simp at h
  | cons k rest ih =>
    intro bk bs bl bc all h
    obtain ⟨labels, centroids, hkm, _⟩ := kMeans_of_nonneg_seed data k 100 42 hne (by norm_num)
    have hscof : scoreOf data k = silhouetteScore data labels := by
      rw [scoreOf, hkm]
      rfl
    rw [findOptimalKGo, hkm]
    simp only []
    cases hsc : silhouetteScore data labels with
    | none =>
      have hmem : ∃ k' ∈ rest, ∃ s', scoreOf data k' = some s' ∧ bs < s' := by
        obtain ⟨k', hk', s', hs', hlt⟩ := h
        rcases List.mem_cons.mp hk' with rfl | hk'
        · rw [hscof, hsc] at hs'; exact absurd hs' (by simp)
        · exact ⟨k', hk', s', hs', hlt⟩
      obtain ⟨res, hres, l1, l2, hsplit, hsc', hbs, hkm', hl1, hall⟩ :=
        ih bk bs bl bc (all ++ [⟨k, none⟩]) hmem
      refine ⟨res, hres, k :: l1, l2, by rw [hsplit, List.cons_append], hsc',
        hbs, hkm', ?_, ?_⟩
      · intro k' hk' s' hs'
        rcases List.mem_cons.mp hk' with rfl | hk'
        · rw [hscof, hsc] at hs'; exact absurd hs' (by simp)
        · exact hl1 k' hk' s' hs'
      · intro k' hk' s' hs'
        rcases List.mem_cons.mp hk' with rfl | hk'
        · rw [hscof, hsc] at hs'; exact absurd hs' (by simp)
        · exact hall k' hk' s' hs'
    | some s =>
      simp only []
      by_cases hup : bs < s
      · rw [if_pos hup]
        by_cases himp : ∃ k' ∈ rest, ∃ s', scoreOf data k' = some s' ∧ s < s'
        · obtain ⟨res, hres, l1, l2, hsplit, hsc', hbs, hkm', hl1, hall⟩ :=
            ih k s labels centroids (all ++ [⟨k, some s⟩]) himp
          refine ⟨res, hres, k :: l1, l2, by rw [hsplit, List.cons_append],
            hsc', lt_trans hup hbs, hkm', ?_, ?_⟩
          · intro k' hk' s' hs'
            rcases List.mem_cons.mp hk' with rfl | hk'
            · rw [hscof, hsc] at hs'
              obtain rfl : s = s' := by simpa using hs'
              exact hbs
            · exact hl1 k' hk' s' hs'
          · intro k' hk' s' hs'
            rcases List.mem_cons.mp hk' with rfl | hk'
            · rw [hscof, hsc] at hs'
              obtain rfl : s = s' := by simpa using hs'
              exact le_of_lt hbs
            · exact hall k' hk' s' hs'
        · push_neg at himp
          obtain ⟨res, hres, hk, hscore, hlab, hcent⟩ :=
            findOptimalKGo_no_improve data hne rest k s labels centroids
              (all ++ [⟨k, some s⟩])
              (fun k' hk' s' hs' => himp k' hk' s' hs')
          refine ⟨res, hres, [], rest, by rw [hk, List.nil_append], ?_, ?_, ?_,
            by simp, ?_⟩
          · rw [hk, hscof, hsc, hscore]
          · rw [hscore]; exact hup
          · rw [hk, hlab, hcent]; exact hkm
          · intro k' hk' s' hs'
            rcases List.mem_cons.mp hk' with rfl | hk'
            · rw [hscof, hsc] at hs'
              obtain rfl : s = s' := by simpa using hs'
              rw [hscore]
            · rw [hscore]
              exact himp k' hk' s' hs'
      · rw [if_neg hup]
        have hmem : ∃ k' ∈ rest, ∃ s', scoreOf data k' = some s' ∧ bs < s' := by
          obtain ⟨k', hk', s', hs', hlt⟩ := h
          rcases List.mem_cons.mp hk' with rfl | hk'
          · rw [hscof, hsc] at hs'
            obtain rfl : s = s' := by simpa using hs'
            exact absurd hlt hup
          · exact ⟨k', hk', s', hs', hlt⟩
        obtain ⟨res, hres, l1, l2, hsplit, hsc', hbs, hkm', hl1, hall⟩ :=
          ih bk bs bl bc (all ++ [⟨k, some s⟩]) hmem
        refine ⟨res, hres, k :: l1, l2, by rw [hsplit, List.cons_append], hsc',
          hbs, hkm', ?_, ?_⟩
        · intro k' hk' s' hs'
          rcases List.mem_cons.mp hk' with rfl | hk'
          · rw [hscof, hsc] at hs'
            obtain rfl : s = s' := by simpa using hs'
            exact lt_of_le_of_lt (le_of_not_lt hup) hbs
          · exact hl1 k' hk' s' hs'
        · intro k' hk' s' hs'
          rcases List.mem_cons.mp hk' with rfl | hk'
          · rw [hscof, hsc] at hs'
            obtain rfl : s = s' := by simpa using hs'
            exact le_trans (le_of_not_lt hup) (le_of_lt hbs)
          · exact hall k' hk' s' hs'

theorem findOptimalKGo_curve (data : List (List ℝ)) (hne : data ≠ []) :
    ∀ (rest : List ℕ) (bk : ℕ) (bs : ℝ) (bl : List ℕ) (bc : List (List ℝ))
      (all : List ScoreEntry),
      ∃ res, findOptimalKGo data rest bk bs bl bc all = some res ∧
        res.silhouetteScores = all ++ rest.map fun k => ⟨k, scoreOf data k⟩ := by
  intro rest
  induction rest with
  | nil => intro bk bs bl bc all; exact ⟨_, rfl, by simp⟩
  | cons k rest ih =>
    intro bk bs bl bc all
    obtain ⟨labels, centroids, hkm, _⟩ := kMeans_of_nonneg_seed data k 100 42 hne (by norm_num)
    have hscof : scoreOf data k = silhouetteScore data labels := by
      rw [scoreOf, hkm]
      rfl
    rw [findOptimalKGo, hkm]
    simp only []
    cases hsc : silhouetteScore data labels with
    | none =>
      obtain ⟨res, hres, hcurve⟩ := ih bk bs bl bc (all ++ [⟨k, none⟩])
      exact ⟨res, hres, by
        rw [hcurve, List.map_cons, hscof, hsc, List.append_assoc,
          List.singleton_append]⟩
    | some s =>
      simp only []
      by_cases hup : bs < s
      · rw [if_pos hup]
        obtain ⟨res, hres, hcurve⟩ := ih k s labels centroids (all ++ [⟨k, some s⟩])
        exact ⟨res, hres, by
          rw [hcurve, List.map_cons, hscof, hsc, List.append_assoc,
            List.singleton_append]⟩
      · rw [if_neg hup]
        obtain ⟨res, hres, hcurve⟩ := ih bk bs bl bc (all ++ [⟨k, some s⟩])
        exact ⟨res, hres, by
          rw [hcurve, List.map_cons, hscof, hsc, List.append_assoc,
            List.singleton_append]⟩

/-- C5 (counterexample): on the empty dataset the model selector returns no
score curve at all — the first `kMeans` call reads `data[0].length` and the
`TypeError` propagates (`none`). -/
theorem findOptimalK_empty_faults :
    findOptimalK ([] : List (List ℝ)) [2, 3, 4, 5, 6] = none := rfl

/-- C5 (amended): on the empty dataset `findOptimalK` throws (the `kMeans`
`TypeError` propagates).  On every nonempty dataset it returns,
unconditionally, the full per-k score curve — one `{k, score}` entry per
candidate, in candidate order.  If some candidate's score exceeds the `-1`
initialisation of `bestScore`, the winner is the first-seen candidate whose
score is the strict maximum, together with exactly that run's labels and
centroids; if no candidate does (every score NaN or `≤ -1`), the result is
`kRange[0]` with `bestScore = -1` and the *initial empty* labels and
centroids, not any run's. -/
theorem findOptimalK_spec :
    (∀ kRange : List ℕ, kRange ≠ [] →
      findOptimalK ([] : List (List ℝ)) kRange = none) ∧
    (∀ (data : List (List ℝ)) (kRange : List ℕ), data ≠ [] →
      ∃ res, findOptimalK data kRange = some res ∧
        res.silhouetteScores = (kRange.map fun k => ⟨k, scoreOf data k⟩) ∧
        ((∃ k ∈ kRange, ∃ s, scoreOf data k = some s ∧ -1 < s) →
          ∃ l1 l2, kRange = l1 ++ res.k :: l2 ∧
            scoreOf data res.k = some res.silhouetteScore ∧
            kMeans data res.k = some (res.labels, res.centroids) ∧
            (∀ k' ∈ l1, ∀ s', scoreOf data k' = some s' →
              s' < res.silhouetteScore) ∧
            (∀ k' ∈ kRange, ∀ s', scoreOf data k' = some s' →
              s' ≤ res.silhouetteScore)) ∧
        ((∀ k ∈ kRange, ∀ s, scoreOf data k = some s → s ≤ -1) →
          res.k = kRange.headD 0 ∧ res.silhouetteScore = -1 ∧
          res.labels = [] ∧ res.centroids = [])) := by
  constructor
  · intro kRange hk
    obtain ⟨k, rest, rfl⟩ := List.exists_cons_of_ne_nil hk
    rfl
  · intro data kRange hne
    rw [findOptimalK]
    obtain ⟨resA, hA, hcurve⟩ :=
      findOptimalKGo_curve data hne kRange (kRange.headD 0) (-1) [] [] []
    refine ⟨resA, hA, by simpa using hcurve, ?_, ?_⟩
    · intro hw
      obtain ⟨resB, hB, l1, l2, hsplit, hsc, _, hkm, hl1, hall⟩ :=
        findOptimalKGo_winner data hne kRange (kRange.headD 0) (-1) [] [] [] hw
      obtain rfl : resA = resB := by
        rw [hA] at hB
        exact Option.some.inj hB
      exact ⟨l1, l2, hsplit, hsc, hkm, hl1,
        fun k' hk' s' hs' => hall k' (hsplit ▸ hk') s' hs'⟩
    · intro hno
      obtain ⟨resC, hC, hk, hscore, hlab, hcent⟩ :=
        findOptimalKGo_no_improve data hne kRange (kRange.headD 0) (-1) [] [] [] hno
      obtain rfl : resA = resC := by
        rw [hA] at hC
        exact Option.some.inj hC
      exact ⟨hk, hscore, hlab, hcent⟩

/-- Concrete model-selector run used by the C5 witness: on the one-point
dataset `[[0]]` with `k = 2`, the seeded generator draws `206659/233280`
(first centroid index 0) and `190736/233280` (the all-zero distance table
makes the walk fall through to index 0), and the assignment loop converges
immediately. -/
theorem kMeans_single_point_eval : kMeans [[(0 : ℝ)]] 2 = some ([0], [[0], [0]]) := by
  have htm1 : ((42 : ℤ) * 9301 + 49297).tmod 233280 = 206659 := by decide
  have htm2 : ((206659 : ℤ) * 9301 + 49297).tmod 233280 = 190736 := by decide
  have hnext1 : (⟨42⟩ : SeededRandom).next = ((206659 : ℝ) / 233280, ⟨206659⟩) := by
    simp only [SeededRandom.next, htm1]
    norm_num
  have hnext2 : (⟨206659⟩ : SeededRandom).next = ((190736 : ℝ) / 233280, ⟨190736⟩) := by
    simp only [SeededRandom.next, htm2]
    norm_num
  have hfloor : ⌊(206659 : ℝ) / 233280⌋ = 0 := by
    rw [Int.floor_eq_zero_iff]
    constructor <;> norm_num
  have hassign : assignLabels [[(0 : ℝ)]] [[0], [0]] 2 = [0] := by
    simp only [assignLabels, argminIdx, List.map_cons, List.map_nil,
      show List.range 2 = [0, 1] from rfl, List.foldl_cons, List.foldl_nil]
    norm_num [dist2]
  have hstep : kmeansPPStep [[(0 : ℝ)]] [[0]] ((190736 : ℝ) / 233280) = 0 := by
    simp only [kmeansPPStep, minDist2, dist2, selectNextIdx, selectGo]
    norm_num [selectGo]
  have hrounds : kmeansPPRounds [[(0 : ℝ)]] 1 [[0]] ⟨206659⟩ =
      ([[0], [0]], ⟨190736⟩) := by
    simp only [kmeansPPRounds, hnext2, hstep]
    simp
  have hloop : kmeansLoop [[(0 : ℝ)]] 2 1 100 [0] [[0], [0]] = ([0], [[0], [0]]) := by
    rw [show (100 : ℕ) = 99 + 1 from rfl, kmeansLoop]
    simp [hassign]
  simp only [kMeans, hnext1]
  norm_num [hfloor, hrounds, hloop]

/-- C5 witness: the amended theorem at the dataset `[[0]]` with candidate
list `[2]`, including the winner conclusion (the candidate's silhouette
score is `some 0 > -1`). -/
theorem findOptimalK_spec_witness :
    ∃ res, findOptimalK [[(0 : ℝ)]] [2] = some res ∧
      res.silhouetteScores = ([2].map fun k => ⟨k, scoreOf [[(0 : ℝ)]] k⟩) ∧
      ∃ l1 l2, [2] = l1 ++ res.k :: l2 ∧
        scoreOf [[(0 : ℝ)]] res.k = some res.silhouetteScore ∧
        kMeans [[(0 : ℝ)]] res.k = some (res.labels, res.centroids) ∧
        (∀ k' ∈ l1, ∀ s', scoreOf [[(0 : ℝ)]] k' = some s' →
          s' < res.silhouetteScore) ∧
        (∀ k' ∈ [2], ∀ s', scoreOf [[(0 : ℝ)]] k' = some s' →
          s' ≤ res.silhouetteScore) := by
  have hsc : scoreOf [[(0 : ℝ)]] 2 = some 0 := by
    rw [scoreOf, kMeans_single_point_eval]
    simp [silhouetteScore]
  obtain ⟨res, hres, hcurve, hwin, _⟩ :=
    findOptimalK_spec.2 [[(0 : ℝ)]] [2] (by simp)
  exact ⟨res, hres, hcurve, hwin ⟨2, by simp, 0, hsc, by norm_num⟩⟩

end StravaRadial
